import Mathlib

/-!
Shallow embedding of the hazardous-materials hybrid retrieval system
(`src/retrieval/hybrid_retriever.py`, `src/database/mysql_handler.py`,
`src/vector_db/chroma_handler.py`, `src/data_processing/text_processor.py`).

Python strings are modelled as Lean `String` (lists of characters), machine
floats that only ever get compared or subtracted are modelled as `ℚ`, Python
`None`-able values as `Option`, and calls into external collaborators
(the FAISS index, the SQL session) as function fields of an environment
record.  A Python `try/except` boundary is modelled with `Except`: code that
can be interrupted by a collaborator failure returns `Except String α` and
the handler turns an error into the literal fallback value of the source.
-/

set_option maxRecDepth 8192

namespace HazMat

/-! ## Character classes used by the regular expressions in the source

`\w` (word character) for the word-boundary `\b`: the source text is a mix
of ASCII and CJK, so a word character is an ASCII alphanumeric, an
underscore, or a CJK unified ideograph.  `\s` is Python whitespace,
`\d` an ASCII decimal digit. -/

def is_word_char (c : Char) : Bool :=
  c.isAlphanum || c = '_' || (0x4e00 ≤ c.toNat && c.toNat ≤ 0x9fff)

def is_py_space (c : Char) : Bool :=
  c = ' ' || c = '\t' || c = '\n' || c = '\r' || c = '\x0b' || c = '\x0c'

/-- Word boundary test against the character immediately before the match
position (`none` at the start of the string). The characters at the match
position itself are word characters ('U', a digit), so `\b` holds exactly
when the previous character is absent or not a word character. -/
def boundary_ok : Option Char → Bool
  | none => true
  | some c => !is_word_char c

/-- Python `in` for strings: substring containment. -/
def contains_substr (s sub : String) : Bool :=
  (List.range (s.data.length + 1)).any (fun i => sub.data.isPrefixOf (s.data.drop i))

/-- Python `str.strip()`: remove leading and trailing whitespace. -/
def py_strip (s : String) : String :=
  String.mk (((s.data.dropWhile is_py_space).reverse.dropWhile is_py_space).reverse)

/-- Numeric value of a digit run, as `int()` of the matched group. -/
def nat_of_digits (ds : List Char) : Nat :=
  ds.foldl (fun acc c => acc * 10 + (c.toNat - 48)) 0

/-! ## The identifier regex

`re` pattern `\bUN\s*(\d+)\b|\b(\d{4})\b` with `re.IGNORECASE`, used both by
`HybridRetriever._detect_query_type` (via `re.search`) and by
`HybridRetriever._exact_search` (via `re.findall`).  Alternative 1 is the
`UN`-prefixed form, alternative 2 a standalone run of exactly four digits.
Each `try_alt` returns the matched number and the number of characters
consumed. -/

/-- The word boundary after the final digit of a match: the following
character must be absent or not a word character. -/
def after_ok : List Char → Bool
  | [] => true
  | a :: _ => !is_word_char a

def try_alt1 (prev : Option Char) (cs : List Char) : Option (Nat × Nat) :=
  match cs with
  | u :: n :: rest =>
    if boundary_ok prev && (u = 'U' || u = 'u') && (n = 'N' || n = 'n') then
      let sp := rest.takeWhile is_py_space
      let rest' := rest.drop sp.length
      let ds := rest'.takeWhile Char.isDigit
      let after := rest'.drop ds.length
      if !ds.isEmpty && after_ok after then
        some (nat_of_digits ds, 2 + sp.length + ds.length)
      else none
    else none
  | _ => none

def try_alt2 (prev : Option Char) (cs : List Char) : Option (Nat × Nat) :=
  match cs with
  | d1 :: d2 :: d3 :: d4 :: after =>
    if boundary_ok prev && d1.isDigit && d2.isDigit && d3.isDigit && d4.isDigit &&
        after_ok after then
      some (nat_of_digits [d1, d2, d3, d4], 4)
    else none
  | _ => none

/-- Does the pattern match starting exactly at position `i` of `cs`?
(`re.search` succeeds iff some start position matches; alternation tries
alternative 1 first, which only matters for `findall`, not for existence.) -/
def match_at (cs : List Char) (i : Nat) : Bool :=
  let prev := if i = 0 then none else cs.get? (i - 1)
  (try_alt1 prev (cs.drop i)).isSome || (try_alt2 prev (cs.drop i)).isSome

/-- Model of `re.search(r'\bUN\s*\d+\b|\b\d{4}\b', query, re.IGNORECASE)`
returning whether a match exists. -/
def search_un (s : String) : Bool :=
  (List.range s.data.length).any (match_at s.data)

/-- Model of `re.findall` with the same pattern: scan left to right; at each
position try alternative 1 then alternative 2; on a match emit the numeric
value (`int(match[0] or match[1])`) and resume after the matched text.  The
fuel argument bounds the number of scanning steps; every step consumes at
least one character, so fuel equal to the string length is always enough. -/
def findall_go : Nat → Option Char → List Char → List Nat
  | 0, _, _ => []
  | _, _, [] => []
  | fuel + 1, prev, c :: cs =>
    match try_alt1 prev (c :: cs) with
    | some (n, k) => n :: findall_go fuel (((c :: cs).take k).getLast?) ((c :: cs).drop k)
    | none =>
      match try_alt2 prev (c :: cs) with
      | some (n, k) => n :: findall_go fuel (((c :: cs).take k).getLast?) ((c :: cs).drop k)
      | none => findall_go fuel (some c) cs

def findall_un (s : String) : List Nat :=
  findall_go s.data.length none s.data

/-! ## Query classification (`HybridRetriever._detect_query_type`) -/

def chemical_keywords : List String :=
  ["化学品", "物质", "液体", "固体", "气体", "电池", "酸", "碱", "醇", "醚"]

def detect_query_type (query : String) : String :=
  if search_un query then "un_number"
  else if chemical_keywords.any (fun kw => contains_substr query kw) then "name_search"
  else "natural_language"

/-! ## Data model

`ChemicalRecord` is the dictionary produced by `MySQLHandler._chemical_to_dict`
(the `id` and timestamp columns are irrelevant to retrieval and omitted).
`Metadata` is the metadata dictionary attached to documents and hits; each
possible key is an `Option` field, `none` meaning the key is absent.
`SearchHit` is the result dictionary: the keys that appear vary by producer
(`distance` and `id` only on raw vector results, `chemical_data` only on
exact-search hits, top-level `search_type` only on semantic hits). -/

structure ChemicalRecord where
  un_number : Nat
  chinese_name : Option String := none
  english_name : Option String := none
  category : Option String := none
  secondary_hazard : Option String := none
  packaging_group : Option String := none
  special_provisions : Option String := none
  limited_quantity : Option String := none
  excepted_quantity : Option String := none
  packaging_instruction : Option String := none
  packaging_special_provision : Option String := none
  portable_tank_instruction : Option String := none
  portable_tank_special_provision : Option String := none
deriving DecidableEq, Repr

structure Metadata where
  source : Option String := none
  doc_type : Option String := none
  un_number : Option String := none
  search_type : Option String := none
  id : Option String := none
  section_id : Option Nat := none
  chunk_id : Option Nat := none
deriving DecidableEq, Repr

structure SearchHit where
  content : String
  metadata : Metadata := {}
  score : ℚ
  distance : Option ℚ := none
  id : Option String := none
  search_type : Option String := none
  chemical_data : Option ChemicalRecord := none
deriving DecidableEq, Repr

/-- The structured result of `HybridRetriever.retrieve`.  The totals are
`Option` because the dictionaries built by the exception handlers carry only
the three mandatory keys. -/
structure RetrievalResult where
  query : String
  chemical_data : List SearchHit := []
  regulations : List SearchHit := []
  total_chemicals : Option Nat := none
  total_regulations : Option Nat := none
deriving DecidableEq, Repr

def empty_result (query : String) : RetrievalResult :=
  { query := query }

/-- The retriever's collaborators and configuration.  `vec` is
`self.vector_handler.semantic_search`; it is given `Except` type so that the
`try/except` blocks guarding its call sites have observable content (error
taxonomy class (d) of the spec).  `db` is the chemicals table read through
`MySQLHandler`, whose own handlers already convert failures to empty lists.
`hashStr` stands for Python's `hash` on strings, and `similarity_threshold`
for `config.get('similarity_threshold')`. -/
structure Env where
  db : List ChemicalRecord
  vec : String → Nat → Except String (List SearchHit)
  similarity_threshold : ℚ
  hashStr : String → Int

/-! ## Structured store (`MySQLHandler`) -/

/-- `query_by_un_number`: equality filter on the UN-number column. -/
def query_by_un_number (db : List ChemicalRecord) (un : Nat) : List ChemicalRecord :=
  db.filter (fun c => c.un_number = un)

/-- `search_by_name`: SQL `LIKE '%name%'` on the primary-name column with a
row limit; a NULL name never matches `LIKE`. -/
def search_by_name (db : List ChemicalRecord) (name : String) (limit : Nat) :
    List ChemicalRecord :=
  (db.filter (fun c =>
    match c.chinese_name with
    | some s => contains_substr s name
    | none => false)).take limit

/-! ## Hit construction (`HybridRetriever._format_chemical_content` and the
result dictionaries of `_exact_search`) -/

/-- Rendering of one field: `None`, the empty string and all-blank strings
display as the text `null`. -/
def fmt_field (v : Option String) : String :=
  match v with
  | none => "null"
  | some s => if py_strip s = "" then "null" else s

def format_chemical_content (c : ChemicalRecord) : String :=
  String.intercalate "\n"
    [ "联合国编号: " ++ toString c.un_number
    , "名称和说明: " ++ fmt_field c.chinese_name
    , "英文名称和说明: " ++ fmt_field c.english_name
    , "类别或项别: " ++ fmt_field c.category
    , "次要危险性: " ++ fmt_field c.secondary_hazard
    , "包装类别: " ++ fmt_field c.packaging_group
    , "特殊规定: " ++ fmt_field c.special_provisions
    , "有限数量: " ++ fmt_field c.limited_quantity
    , "例外数量: " ++ fmt_field c.excepted_quantity
    , "包装和中型散装容器包装指南: " ++ fmt_field c.packaging_instruction
    , "包装和中型散装容器特殊包装规定: " ++ fmt_field c.packaging_special_provision
    , "可移动罐柜和散装容器指南: " ++ fmt_field c.portable_tank_instruction
    , "可移动罐柜和散装容器特殊规定: " ++ fmt_field c.portable_tank_special_provision ]

def mk_exact_un_hit (c : ChemicalRecord) : SearchHit :=
  { content := format_chemical_content c
  , metadata := { source := some "mysql", doc_type := some "chemical"
                , un_number := some (toString c.un_number)
                , search_type := some "exact_un" }
  , score := 1
  , chemical_data := some c }

def mk_exact_name_hit (c : ChemicalRecord) : SearchHit :=
  { content := format_chemical_content c
  , metadata := { source := some "mysql", doc_type := some "chemical"
                , un_number := some (toString c.un_number)
                , search_type := some "exact_name" }
  , score := mkRat 9 10
  , chemical_data := some c }

/-! ## Exact search (`HybridRetriever._exact_search`) -/

/-- `_expand_search_terms`.  The source builds a list and pipes it through
`list(set(...))`; Python's set iteration order is unspecified, so the model
keeps first-occurrence order.  No theorem below depends on the order. -/
def expand_search_terms (query : String) : List String :=
  (( if contains_substr query "锂电池" then ["锂离子电池", "锂金属电池", "锂合金电池"]
     else if contains_substr query "电池" && contains_substr query "锂" then
       ["锂离子电池", "锂金属电池"]
     else if contains_substr query "电池" then ["锂离子电池", "锂金属电池", "电池"]
     else []) ++
   ( if contains_substr query "易燃" then ["易燃液体", "易燃固体", "易燃气体"]
     else if contains_substr query "腐蚀" then ["腐蚀性物质", "腐蚀性液体"]
     else if contains_substr query "有毒" then ["有毒物质", "毒性物质"]
     else [])).dedup

/-- The keyword-expansion retry loop of `_exact_search`: extend with the hits
for each expanded term, stopping once `top_k` rows have been accumulated. -/
def expansion_loop (db : List ChemicalRecord) (terms : List String) (top_k : Nat)
    (acc : List ChemicalRecord) : List ChemicalRecord :=
  match terms with
  | [] => acc
  | t :: ts =>
    let acc' := acc ++ search_by_name db t top_k
    if top_k ≤ acc'.length then acc' else expansion_loop db ts top_k acc'

/-- The hits built from the UN numbers extracted from the query (the first
`for match in un_numbers` loop; the duplicated lookup loop that only feeds
`total_found` for logging has no effect on the result). -/
def un_hits (db : List ChemicalRecord) (query : String) : List SearchHit :=
  (findall_un query).flatMap (fun n => (query_by_un_number db n).map mk_exact_un_hit)

def exact_search (env : Env) (query : String) (top_k : Nat) : List SearchHit :=
  let idHits := un_hits env.db query
  let results :=
    if idHits.isEmpty then
      let chems := search_by_name env.db query top_k
      let chems :=
        if chems.isEmpty then expansion_loop env.db (expand_search_terms query) top_k []
        else chems
      (chems.take top_k).map mk_exact_name_hit
    else idHits
  results.take top_k

/-! ## Semantic search at the retriever level
(`HybridRetriever._semantic_search`): rescores each raw vector hit from the
`distance` key (defaulting to `1.0`), keeps hits at or above the configured
similarity threshold, and rebuilds the result dictionary without the
`distance`, `id` and `chemical_data` keys.  Its `try/except` converts a
collaborator failure into the empty list. -/

/-- Python `max(a, b)`. (`Max.max` on `ℚ` is avoided only because its
instance does not reduce in the kernel; this computes the same value.) -/
def py_max (a b : ℚ) : ℚ :=
  if a ≤ b then b else a

def semantic_rescore (threshold : ℚ) (r : SearchHit) : Option SearchHit :=
  let distance := r.distance.getD 1
  let similarity := py_max 0 (1 - distance)
  if threshold ≤ similarity then
    some { content := r.content, metadata := r.metadata, score := similarity
         , search_type := some "semantic" }
  else none

def semantic_search_r (env : Env) (query : String) (top_k : Nat) : List SearchHit :=
  match env.vec query top_k with
  | .error _ => []
  | .ok vres => vres.filterMap (semantic_rescore env.similarity_threshold)

/-! ## Merge / deduplicate / rank (`HybridRetriever._merge_results`) -/

/-- The deduplication key: for a hit carrying chemical data the string
`un_<number>_pkg_<group>` (a missing packaging group renders as the text
`None`, exactly as Python's f-string renders the value `None`); otherwise the
stored metadata `id`, or the decimal rendering of the content hash. -/
def merge_key (hashStr : String → Int) (h : SearchHit) : String :=
  match h.chemical_data with
  | some chem => "un_" ++ toString chem.un_number ++ "_pkg_" ++ chem.packaging_group.getD "None"
  | none =>
    match h.metadata.id with
    | some i => i
    | none => toString (hashStr h.content)

/-- Insertion-ordered dictionary update, as Python dict assignment: a new key
is appended, an existing key keeps its position and gets the new value. -/
def insert_hit (hashStr : String → Int) (m : List (String × SearchHit)) (r : SearchHit) :
    List (String × SearchHit) :=
  match (m.find? (fun p => p.1 = merge_key hashStr r)).map Prod.snd with
  | none => m ++ [(merge_key hashStr r, r)]
  | some old =>
    if old.score < r.score then
      m.map (fun p => if p.1 = merge_key hashStr r then (p.1, r) else p)
    else m

def merged_dict (hashStr : String → Int) (r1 r2 : List SearchHit) :
    List (String × SearchHit) :=
  (r1 ++ r2).foldl (insert_hit hashStr) []

/-- Dictionary lookup (`merged[key]` / `key in merged`) on the
insertion-ordered association list. -/
def dlookup (m : List (String × SearchHit)) (k : String) : Option SearchHit :=
  (m.find? (fun p => p.1 = k)).map Prod.snd

/-- Comparator of `sorted(..., key=score, reverse=True)`: descending by
score.  Python's sort is a stable sort; the model uses stable insertion
sort, which computes the same list. -/
def score_ge (a b : SearchHit) : Prop :=
  b.score ≤ a.score

instance : DecidableRel score_ge :=
  fun a b => inferInstanceAs (Decidable (b.score ≤ a.score))

instance : IsTotal SearchHit score_ge :=
  ⟨fun a b => le_total b.score a.score⟩

instance : IsTrans SearchHit score_ge :=
  ⟨fun _ _ _ hab hbc => le_trans hbc hab⟩

def merge_results (hashStr : String → Int) (r1 r2 : List SearchHit) : List SearchHit :=
  List.insertionSort score_ge ((merged_dict hashStr r1 r2).map Prod.snd)

/-! ## Hybrid and auto search -/

def hybrid_search (env : Env) (query : String) (top_k : Nat) : List SearchHit :=
  let exactResults := exact_search env query (top_k / 2 + 1)
  let semanticResults := semantic_search_r env query (top_k / 2 + 1)
  (merge_results env.hashStr exactResults semanticResults).take top_k

/-- Hybrid search as the specification words it: run exact search and
semantic search independently with the result cap `cap top_k`, merge via the
merge algorithm, truncate to `top_k`.  The source instantiates the cap with
integer floor division (`top_k // 2 + 1`). -/
def hybrid_search_capped (cap : Nat → Nat) (env : Env) (query : String) (top_k : Nat) :
    List SearchHit :=
  (merge_results env.hashStr (exact_search env query (cap top_k))
    (semantic_search_r env query (cap top_k))).take top_k

/-- `_auto_search`: dispatch on the detected query type; a natural-language
query runs semantic search first and tops up with exact search when short. -/
def auto_search (env : Env) (query : String) (top_k : Nat) : List SearchHit :=
  let qt := detect_query_type query
  if qt = "un_number" then exact_search env query top_k
  else if qt = "name_search" then hybrid_search env query top_k
  else
    let semanticResults := semantic_search_r env query top_k
    if semanticResults.length < top_k then
      (merge_results env.hashStr semanticResults
        (exact_search env query (top_k - semanticResults.length))).take top_k
    else semanticResults

/-! ## Regulation association (`HybridRetriever._find_related_regulations`)

The loop body carries the pair (accumulated regulations, `found_specific`)
through the tiers; the whole function body sits in one `try/except`, so any
collaborator failure anywhere in the loop yields the empty list.  The
per-call state is threaded through `Except`. -/

/-- Split a character list at every separator, keeping empty pieces, as
`re.split` on a single-character class does. -/
def split_chars_go (p : Char → Bool) (acc : List Char) : List Char → List String
  | [] => [String.mk acc.reverse]
  | c :: cs =>
    if p c then String.mk acc.reverse :: split_chars_go p [] cs
    else split_chars_go p (c :: acc) cs

/-- Python `str.split()` with no argument: split on whitespace runs,
discarding empty pieces. -/
def py_split_ws (s : String) : List String :=
  (split_chars_go is_py_space [] s.data).filter (fun t => t ≠ "")

/-- Python `str.isdigit()` restricted to ASCII digits: nonempty and all
digits. -/
def is_digit_str (t : String) : Bool :=
  !t.data.isEmpty && t.data.all Char.isDigit

/-- The purely numeric tokens of a record's special-provision column; an
absent or empty column is falsy and contributes nothing. -/
def provision_tokens (c : ChemicalRecord) : List String :=
  match c.special_provisions with
  | none => []
  | some s => if s = "" then [] else (py_split_ws s).filter is_digit_str

/-- Filter and append loop shared by the first three tiers: keep hits tagged
`appendix_a` that are not already collected, and flip `found_specific` on
every append. -/
def add_regs (regs : List SearchHit) (st : List SearchHit × Bool) : List SearchHit × Bool :=
  match regs with
  | [] => st
  | reg :: rest =>
    add_regs rest
      (if reg.metadata.source = some "appendix_a" ∧ reg ∉ st.1 then (st.1 ++ [reg], true)
       else st)

/-- The same filter for the category fallback tier, which never flips
`found_specific`. -/
def add_regs_cat (regs : List SearchHit) (related : List SearchHit) : List SearchHit :=
  match regs with
  | [] => related
  | reg :: rest =>
    add_regs_cat rest
      (if reg.metadata.source = some "appendix_a" ∧ reg ∉ related then related ++ [reg]
       else related)

/-- One semantic-search call feeding `add_regs`, threaded through the
surrounding exception boundary. -/
def step_vec_add (env : Env) (k : Nat) (s : Except String (List SearchHit × Bool))
    (t : String) : Except String (List SearchHit × Bool) :=
  match s with
  | .error e => .error e
  | .ok st =>
    match env.vec t k with
    | .error e => .error e
    | .ok regs => .ok (add_regs regs st)

/-- The name-derived keyword expansions of the third tier. -/
def specific_terms (name : String) : List String :=
  (if contains_substr name "电池" then ["电池", "锂电池", "锂离子"] else []) ++
  (if contains_substr name "黏合剂" || contains_substr name "胶" then ["黏合剂", "胶水", "胶"]
   else []) ++
  (if contains_substr name "汽油" then ["汽油", "燃料"] else []) ++
  (if contains_substr name "乙醇" then ["乙醇", "酒精"] else [])

/-- Truthiness of `chemical_info.get('chinese_name')`. -/
def name_truthy (c : ChemicalRecord) : Bool :=
  match c.chinese_name with
  | some s => s ≠ ""
  | none => false

/-- One iteration of `for chemical in chemical_data`: provision tier, the
`continue` on `found_specific`, UN-number tier, then the name-keyword tier
(whose guard is evaluated once, before its inner loop). -/
def process_chemical (env : Env) (s : Except String (List SearchHit × Bool))
    (cd : Option ChemicalRecord) : Except String (List SearchHit × Bool) :=
  match s with
  | .error e => .error e
  | .ok st =>
    match cd with
    | none => .ok st
    | some c =>
      match (provision_tokens c).foldl (step_vec_add env 5) (.ok st) with
      | .error e => .error e
      | .ok st1 =>
        if st1.2 then .ok st1
        else
          match (if c.un_number ≠ 0 then
                   step_vec_add env 3 (.ok st1) (toString c.un_number)
                 else .ok st1) with
          | .error e => .error e
          | .ok st2 =>
            if ¬st2.2 ∧ name_truthy c then
              ((specific_terms (c.chinese_name.getD "")).take 3).foldl
                (step_vec_add env 3) (.ok st2)
            else .ok st2

def related_loop (env : Env) (chems : List SearchHit) :
    Except String (List SearchHit × Bool) :=
  chems.foldl (fun s h => process_chemical env s h.chemical_data) (.ok ([], false))

/-- The truthy categories of the matched chemicals.  The source collects them
in a Python set whose iteration order is unspecified; the model keeps
first-occurrence order.  No theorem below depends on the order. -/
def chemical_categories (chems : List SearchHit) : List String :=
  ((chems.filterMap (fun h => h.chemical_data)).filterMap
    (fun c => match c.category with
      | some s => if s = "" then none else some s
      | none => none)).dedup

def category_step (env : Env) (s : Except String (List SearchHit)) (t : String) :
    Except String (List SearchHit) :=
  match s with
  | .error e => .error e
  | .ok related =>
    match env.vec t 2 with
    | .error e => .error e
    | .ok regs => .ok (add_regs_cat regs related)

def category_pass (env : Env) (chems : List SearchHit) (related : List SearchHit) :
    Except String (List SearchHit) :=
  ((chemical_categories chems).take 2).foldl
    (fun s cat => (["第" ++ cat ++ "类", "类别" ++ cat]).foldl (category_step env) s)
    (.ok related)

def find_related_regulations_core (env : Env) (chems : List SearchHit) :
    Except String (List SearchHit) :=
  match related_loop env chems with
  | .error e => .error e
  | .ok st =>
    match (if st.2 then .ok st.1 else category_pass env chems st.1) with
    | .error e => .error e
    | .ok l => .ok ((List.insertionSort score_ge l).take 3)

/-- `_find_related_regulations`; the `query` argument is accepted but unused,
as in the source. -/
def find_related_regulations (env : Env) (chems : List SearchHit) (_query : String) :
    List SearchHit :=
  match find_related_regulations_core env chems with
  | .ok l => l
  | .error _ => []

/-! ## Regulation merging (`HybridRetriever._merge_regulations`): first
occurrence wins per stored id (content hash when the id is absent), then the
survivors are sorted by score descending. -/

def reg_key (hashStr : String → Int) (r : SearchHit) : String :=
  match r.metadata.id with
  | some i => i
  | none => toString (hashStr r.content)

def insert_reg (hashStr : String → Int) (m : List (String × SearchHit)) (r : SearchHit) :
    List (String × SearchHit) :=
  if (m.find? (fun p => p.1 = reg_key hashStr r)).isSome then m
  else m ++ [(reg_key hashStr r, r)]

def merge_regulations (hashStr : String → Int) (r1 r2 : List SearchHit) : List SearchHit :=
  List.insertionSort score_ge (((r1 ++ r2).foldl (insert_reg hashStr) []).map Prod.snd)

/-! ## Result assembly (`HybridRetriever._build_structured_result`) -/

def build_structured_result (env : Env) (basic : List SearchHit) (query : String) :
    RetrievalResult :=
  let chemicalData := basic.filter (fun h => decide (h.metadata.doc_type = some "chemical"))
  let regulations := basic.filter (fun h => decide (h.metadata.doc_type = some "regulation"))
  let related := find_related_regulations env chemicalData query
  let allRegulations := merge_regulations env.hashStr regulations related
  { query := query
  , chemical_data := chemicalData
  , regulations := allRegulations
  , total_chemicals := some chemicalData.length
  , total_regulations := some allRegulations.length }

/-! ## Name extraction for the fallback search
(`HybridRetriever._extract_chemical_names`)

Each template is `re.search(r'(.+?)<suffix>', query)`: the engine finds the
leftmost starting position `i` and, lazily, the smallest end `j > i` such
that the literal suffix starts at `j`; the dot does not match a newline. -/

def fallback_suffixes : List String :=
  [ "存储要求", "储存要求", "保存要求"
  , "的存储要求", "的储存要求", "的保存要求"
  , "运输要求", "的运输要求"
  , "安全要求", "的安全要求"
  , "包装要求", "的包装要求"
  , "危险性", "的危险性"
  , "注意事项", "的注意事项"
  , "规定", "的规定" ]

def lazy_capture (qs : List Char) (pat : List Char) : Option (List Char) :=
  (List.range qs.length).findSome? (fun i =>
    (List.range' (i + 1) (qs.length - i)).findSome? (fun j =>
      let segment := (qs.drop i).take (j - i)
      if !segment.isEmpty && segment.all (fun c => c ≠ '\n') &&
          pat.isPrefixOf (qs.drop j) then
        some segment
      else none))

/-- Does the string contain a run of three or more ASCII digits
(`re.search(r'[0-9]{3,}', name)`)? -/
def has_digit_run3 : List Char → Bool
  | a :: b :: c :: rest => (a.isDigit && b.isDigit && c.isDigit) || has_digit_run3 (b :: c :: rest)
  | _ => false

def extract_chemical_names (query : String) : List String :=
  let names := fallback_suffixes.foldl
    (fun acc pat =>
      match lazy_capture query.data pat.data with
      | none => acc
      | some seg =>
        let name := py_strip (String.mk seg)
        if 2 ≤ name.length && !has_digit_run3 name.data then acc ++ [name] else acc)
    []
  names.dedup.take 3

/-! ## Fallback search and the top-level entry point -/

def fallback_search (env : Env) (query : String) (top_k : Nat) : RetrievalResult :=
  let names := extract_chemical_names query
  if names.isEmpty then empty_result query
  else
    let allResults := names.foldl (fun acc n => acc ++ hybrid_search env n top_k) []
    if allResults.isEmpty then empty_result query
    else build_structured_result env allResults query

/-- `HybridRetriever.retrieve`: dispatch on the strategy string (any
unrecognised value falls through to auto search), assemble the structured
result, and when both buckets are empty try the fallback search. -/
def retrieve (env : Env) (query : String) (strategy : String := "auto")
    (top_k : Nat := 5) : RetrievalResult :=
  let basic :=
    if strategy = "exact" then exact_search env query top_k
    else if strategy = "semantic" then semantic_search_r env query top_k
    else if strategy = "hybrid" then hybrid_search env query top_k
    else auto_search env query top_k
  let structured := build_structured_result env basic query
  if structured.chemical_data.isEmpty && structured.regulations.isEmpty then
    let fb := fallback_search env query top_k
    if !fb.chemical_data.isEmpty || !fb.regulations.isEmpty then fb else structured
  else structured

/-! ## Vector store (`VectorHandler` of `chroma_handler.py`)

The FAISS index itself is external: `ann` stands for `self.index.search` and
returns (similarity, row index) pairs.  `transform_query` is
`SimpleTfidfVectorizer.transform`, which raises when the vectorizer was never
fitted; `vec_semantic_search_core` is the body of the `try` block of
`VectorHandler.semantic_search` and `vec_semantic_search` adds its handler. -/

structure VecState where
  documents : List String
  meta : List Metadata
  fitted : Bool
  index_present : Bool
  ntotal : Nat
  ann : String → Nat → List (ℚ × Int)
  retrieval_top_k : Nat

def transform_query (fitted : Bool) : Except String Unit :=
  if fitted then .ok () else .error "向量化器尚未训练"

/-- The result-formatting loop: keep pairs with a valid row index and a
similarity strictly above 0.1, read the stored document and metadata (a
metadata row shorter than the document list would raise an `IndexError`,
caught by the surrounding handler), and re-check the 0.1 floor before
appending. -/
def format_vec_results (st : VecState) : List (ℚ × Int) → Except String (List SearchHit)
  | [] => .ok []
  | (score, idx) :: rest =>
    if 0 ≤ idx ∧ idx.toNat < st.documents.length ∧ mkRat 1 10 < score then
      match st.meta.get? idx.toNat with
      | none => .error "IndexError"
      | some md =>
        let r : SearchHit :=
          { content := st.documents.getD idx.toNat ""
          , metadata := md
          , score := score
          , distance := some (1 - score)
          , id := some (md.id.getD ("doc_" ++ toString idx.toNat)) }
        match format_vec_results st rest with
        | .error e => .error e
        | .ok tail => .ok (if mkRat 1 10 ≤ score then r :: tail else tail)
    else
      format_vec_results st rest

def vec_semantic_search_core (st : VecState) (query : String) (top_k : Option Nat) :
    Except String (List SearchHit) :=
  let k := top_k.getD st.retrieval_top_k
  if !st.index_present || st.ntotal == 0 then .ok []
  else if !st.fitted then .ok []
  else
    match transform_query st.fitted with
    | .error e => .error e
    | .ok _ => format_vec_results st (st.ann query (min k st.ntotal))

def vec_semantic_search (st : VecState) (query : String) (top_k : Option Nat) :
    List SearchHit :=
  match vec_semantic_search_core st query top_k with
  | .ok r => r
  | .error _ => []

/-! ## Markdown corpus ingestion (`TextProcessor.process_markdown_content`
and `VectorHandler.import_markdown_data`)

`markdown.markdown` is an external library and is passed in as a function;
the HTML tag stripping, section splitting and sentence chunking are source
code and modelled directly. -/

/-- `re.sub(r'<[^>]+>', '', html)`: drop every maximal run of non-`>`
characters enclosed in angle brackets. -/
def strip_tags_go : Nat → List Char → List Char
  | 0, cs => cs
  | _ + 1, [] => []
  | fuel + 1, c :: cs =>
    if c = '<' then
      let inner := cs.takeWhile (fun x => x ≠ '>')
      if !inner.isEmpty && (cs.drop inner.length).headD ' ' = '>' &&
          !(cs.drop inner.length).isEmpty then
        strip_tags_go fuel (cs.drop (inner.length + 1))
      else c :: strip_tags_go fuel cs
    else c :: strip_tags_go fuel cs

def strip_tags (s : String) : String :=
  String.mk (strip_tags_go s.data.length s.data)

/-- Lookahead of `re.split(r'\n(?=\d+\s+)', text)`: the text after the
newline starts with digits followed by whitespace. -/
def sec_cond_digits (rest : List Char) : Bool :=
  let ds := rest.takeWhile Char.isDigit
  !ds.isEmpty && (match rest.drop ds.length with
    | s :: _ => is_py_space s
    | [] => false)

/-- Lookahead of `re.split(r'\n(?=#\s+)', section)`. -/
def sec_cond_hash (rest : List Char) : Bool :=
  match rest with
  | '#' :: s :: _ => is_py_space s
  | _ => false

/-- Split at every newline whose suffix satisfies `p`, consuming the
newline. -/
def split_nl_go : Nat → (List Char → Bool) → List Char → List Char → List (List Char)
  | 0, _, acc, cs => [acc.reverse ++ cs]
  | _ + 1, _, acc, [] => [acc.reverse]
  | fuel + 1, p, acc, c :: cs =>
    if c = '\n' && p cs then acc.reverse :: split_nl_go fuel p [] cs
    else split_nl_go fuel p (c :: acc) cs

def split_nl (p : List Char → Bool) (s : String) : List String :=
  (split_nl_go s.data.length p [] s.data).map String.mk

def split_by_sections (text : String) : List String :=
  let sections := split_nl sec_cond_digits text
  let allSections := sections.flatMap (split_nl sec_cond_hash)
  (allSections.map py_strip).filter (fun s => s ≠ "")

/-- `re.split(r'[。！？；\n]', text)`: split at every sentence-ending mark,
keeping empty pieces (they are skipped later by the strip check). -/
def split_sentences (text : String) : List String :=
  split_chars_go (fun c => c = '。' || c = '！' || c = '？' || c = '；' || c = '\n') [] text.data

/-- The accumulation step of `_split_text_into_chunks` over one stripped
sentence. -/
def chunk_step (maxSize overlap : Nat) (st : List String × String) (sentenceRaw : String) :
    List String × String :=
  let sentence := py_strip sentenceRaw
  if sentence = "" then st
  else
    let (chunks, current) := st
    if maxSize < current.length + sentence.length then
      if current ≠ "" then
        let nextCurrent :=
          if 0 < overlap then
            String.mk (current.data.drop (current.length - overlap)) ++ sentence
          else sentence
        (chunks ++ [py_strip current], nextCurrent)
      else (chunks ++ [sentence], "")
    else (chunks, current ++ sentence ++ "。")

def split_text_into_chunks (maxSize overlap : Nat) (text : String) : List String :=
  if text.length ≤ maxSize then [text]
  else
    let (chunks, current) := (split_sentences text).foldl (chunk_step maxSize overlap) ([], "")
    if py_strip current ≠ "" then chunks ++ [py_strip current] else chunks

/-- `TextProcessor.process_markdown_content`: returns (content, metadata)
pairs; every chunk longer than 50 characters is tagged
`source = appendix_a`, `doc_type = regulation` with its section and chunk
indices. -/
def process_markdown_content (md2html : String → String) (maxSize overlap : Nat)
    (markdown_content : String) : List (String × Metadata) :=
  let text := strip_tags (md2html markdown_content)
  let sections := split_by_sections text
  sections.enum.flatMap (fun (i, sec) =>
    if py_strip sec ≠ "" then
      (split_text_into_chunks maxSize overlap sec).enum.filterMap (fun (j, chunk) =>
        if 50 < (py_strip chunk).length then
          some (py_strip chunk,
            { source := some "appendix_a", doc_type := some "regulation"
            , section_id := some i, chunk_id := some j })
        else none)
    else [])

/-- `VectorHandler.import_markdown_data` attaches the stored id
`appendix_<section>_<chunk>` to each document's metadata before indexing. -/
def import_markdown_metas (md2html : String → String) (maxSize overlap : Nat)
    (markdown_content : String) : List (String × Metadata) :=
  (process_markdown_content md2html maxSize overlap markdown_content).map
    (fun (c, m) =>
      (c, { m with id := some ("appendix_" ++ toString (m.section_id.getD 0) ++ "_" ++
                               toString (m.chunk_id.getD 0)) }))

/-- Claim-side characterization of a query containing a well-formed
identifier token as the pattern actually accepts it: either a `UN`/`un`
prefix at a word boundary followed by optional whitespace and a digit run
ending at a word boundary, or a standalone run of exactly four digits
delimited by word boundaries. -/
def spec_identifier_token (q : String) : Prop :=
  (∃ pre u n ws ds post, q.data = pre ++ u :: n :: (ws ++ (ds ++ post)) ∧
    (u = 'U' ∨ u = 'u') ∧ (n = 'N' ∨ n = 'n') ∧
    (∀ c ∈ ws, is_py_space c = true) ∧ ds ≠ [] ∧ (∀ c ∈ ds, c.isDigit = true) ∧
    boundary_ok pre.getLast? = true ∧ after_ok post = true) ∨
  (∃ pre ds post, q.data = pre ++ (ds ++ post) ∧ ds.length = 4 ∧
    (∀ c ∈ ds, c.isDigit = true) ∧
    boundary_ok pre.getLast? = true ∧ after_ok post = true)

/-! ## Concrete instances used in the closed theorems below -/

def hash0 : String → Int := fun _ => 0

def chem_1133_I : ChemicalRecord :=
  { un_number := 1133, chinese_name := some "黏合剂", category := some "3"
  , packaging_group := some "I", special_provisions := some "123 A7" }

def chem_1133_II : ChemicalRecord :=
  { un_number := 1133, chinese_name := some "黏合剂", category := some "3"
  , packaging_group := some "II" }

def chem_alcohol : ChemicalRecord :=
  { un_number := 1170, chinese_name := some "工业酒精" }

def chem_1133_III : ChemicalRecord :=
  { un_number := 1133, packaging_group := some "III" }

def chem_1133_IV : ChemicalRecord :=
  { un_number := 1133, packaging_group := some "IV" }

def hit_1133_I : SearchHit :=
  { content := "p1", score := 1, chemical_data := some chem_1133_I }

def hit_1133_II : SearchHit :=
  { content := "p2", score := mkRat 9 10, chemical_data := some chem_1133_II }

def chem_pkg_null : ChemicalRecord :=
  { un_number := 1 }

def chem_pkg_none_string : ChemicalRecord :=
  { un_number := 1, packaging_group := some "None" }

def hit_pkg_null : SearchHit :=
  { content := "a", score := 1, chemical_data := some chem_pkg_null }

def hit_pkg_none_string : SearchHit :=
  { content := "b", score := mkRat 9 10
  , chemical_data := some chem_pkg_none_string }

def reg_hit0 : SearchHit :=
  { content := "附录A条款", metadata := { source := some "appendix_a", id := some "appendix_0_0" }
  , score := mkRat 1 2 }

def env_ok : Env :=
  { db := [chem_1133_I, chem_1133_II], vec := fun _ _ => .ok []
  , similarity_threshold := mkRat 1 10, hashStr := hash0 }

def env_reg : Env :=
  { db := [chem_1133_I]
  , vec := fun q k => if q = "123" ∧ k = 5 then .ok [reg_hit0] else .ok []
  , similarity_threshold := mkRat 1 10, hashStr := hash0 }

def env_fail : Env :=
  { db := [chem_alcohol], vec := fun _ _ => .error "faiss down"
  , similarity_threshold := mkRat 1 10, hashStr := hash0 }

def chem_odd_name : ChemicalRecord :=
  { un_number := 42, chinese_name := some "UN9999特殊品" }

def env_odd : Env :=
  { db := [chem_odd_name], vec := fun _ _ => .ok []
  , similarity_threshold := mkRat 1 10, hashStr := hash0 }

def env_many : Env :=
  { db := [chem_1133_I, chem_1133_II, chem_1133_III, chem_1133_IV]
  , vec := fun _ _ => .ok [], similarity_threshold := mkRat 1 10, hashStr := hash0 }

def vec_unfitted : VecState :=
  { documents := ["某危险品文档"], meta := [{ doc_type := some "chemical" }]
  , fitted := false, index_present := true, ntotal := 1
  , ann := fun _ _ => [(1, 0)], retrieval_top_k := 50 }

def vec_fitted : VecState :=
  { documents := ["文档A", "文档B"]
  , meta := [{ doc_type := some "regulation", id := some "appendix_0_0"
             , source := some "appendix_a" }
           , { doc_type := some "chemical" }]
  , fitted := true, index_present := true, ntotal := 2
  , ann := fun _ k => if k = 2 then [(mkRat 4 5, 0), (mkRat 1 20, 1)] else []
  , retrieval_top_k := 50 }

/-!
# Theorems

First the facts about the merge dictionary shared by several claims, then
the claims themselves.
-/

theorem mem_insert_hit {hs : String → Int} {m : List (String × SearchHit)}
    {r : SearchHit} {p : String × SearchHit} (hp : p ∈ insert_hit hs m r) :
    p ∈ m ∨ p = (merge_key hs r, r) := by
  unfold insert_hit at hp
  rcases hfind : (m.find? (fun q => q.1 = merge_key hs r)).map Prod.snd with _ | old
  · rw [hfind] at hp
    dsimp only at hp
    simp only [List.mem_append, List.mem_singleton] at hp
    exact hp
  · rw [hfind] at hp
    dsimp only at hp
    by_cases hlt : old.score < r.score
    · rw [if_pos hlt] at hp
      rcases List.mem_map.mp hp with ⟨q, hq, hfq⟩
      by_cases hk : q.1 = merge_key hs r
      · right
        rw [if_pos hk] at hfq
        rw [← hfq, hk]
      · left
        rw [if_neg hk] at hfq
        exact hfq ▸ hq
    · rw [if_neg hlt] at hp
      exact Or.inl hp

theorem find?_map_replace {m : List (String × SearchHit)} {k k' : String} {r : SearchHit} :
    List.find? (fun p => decide (p.1 = k))
      (m.map (fun p => if p.1 = k' then (p.1, r) else p)) =
    Option.map (fun p => if p.1 = k' then (p.1, r) else p)
      (List.find? (fun p => decide (p.1 = k)) m) := by
  have hpred : ((fun (p : String × SearchHit) => decide (p.1 = k)) ∘
      (fun p => if p.1 = k' then (p.1, r) else p)) = fun p => decide (p.1 = k) := by
    funext p
    by_cases hp : p.1 = k' <;> simp [hp]
  rw [List.find?_map, hpred]

theorem dlookup_insert_hit_ne {hs : String → Int} {m : List (String × SearchHit)}
    {r : SearchHit} {k : String} (hk : k ≠ merge_key hs r) :
    dlookup (insert_hit hs m r) k = dlookup m k := by
  unfold insert_hit dlookup
  rcases hfind : (m.find? (fun q => q.1 = merge_key hs r)).map Prod.snd with _ | old
  · rw [hfind]
    dsimp only
    rw [List.find?_append]
    have hsingle : List.find? (fun p => decide (p.1 = k)) [(merge_key hs r, r)] = none := by
      simp [List.find?, hk.symm]
    rw [hsingle, Option.or_none]
  · rw [hfind]
    dsimp only
    by_cases hlt : old.score < r.score
    · rw [if_pos hlt, find?_map_replace]
      rcases hf : m.find? (fun p => decide (p.1 = k)) with _ | q
      · rw [hf]
        simp
      · have hq := List.find?_some hf
        simp only [decide_eq_true_eq] at hq
        have hqne : ¬(q.1 = merge_key hs r) := by
          rw [hq]
          exact hk
        rw [hf]
        simp [hqne]
    · rw [if_neg hlt]

theorem dlookup_insert_hit_self (hs : String → Int) (m : List (String × SearchHit))
    (r : SearchHit) :
    ∃ v, dlookup (insert_hit hs m r) (merge_key hs r) = some v ∧ r.score ≤ v.score := by
  unfold insert_hit dlookup
  rcases hfind : (m.find? (fun q => q.1 = merge_key hs r)).map Prod.snd with _ | old
  · refine ⟨r, ?_, le_refl _⟩
    rw [hfind]
    dsimp only
    rw [List.find?_append]
    have hm : m.find? (fun p => decide (p.1 = merge_key hs r)) = none := by
      rcases hf : m.find? (fun p => decide (p.1 = merge_key hs r)) with _ | q
      · exact hf
      · rw [hf] at hfind
        simp at hfind
    rw [hm, Option.none_or]
    simp [List.find?]
  · rw [hfind]
    dsimp only
    by_cases hlt : old.score < r.score
    · refine ⟨r, ?_, le_refl _⟩
      rw [if_pos hlt, find?_map_replace]
      rcases hf : m.find? (fun p => decide (p.1 = merge_key hs r)) with _ | q
      · rw [hf] at hfind
        simp at hfind
      · have hq := List.find?_some hf
        simp only [decide_eq_true_eq] at hq
        rw [hf]
        simp [hq]
    · refine ⟨old, ?_, le_of_not_lt hlt⟩
      rw [if_neg hlt]
      exact hfind

theorem insert_hit_of_dominated {hs : String → Int} {m : List (String × SearchHit)}
    {r v : SearchHit} (hv : dlookup m (merge_key hs r) = some v)
    (hle : r.score ≤ v.score) : insert_hit hs m r = m := by
  unfold insert_hit
  unfold dlookup at hv
  rw [hv]
  dsimp only
  rw [if_neg (not_lt.mpr hle)]

theorem dlookup_insert_hit_mono (hs : String → Int) {m : List (String × SearchHit)}
    (r : SearchHit) {old : SearchHit} {k : String} (hold : dlookup m k = some old) :
    ∃ v, dlookup (insert_hit hs m r) k = some v ∧ old.score ≤ v.score := by
  by_cases hk : k = merge_key hs r
  · subst hk
    have hold' := hold
    unfold dlookup at hold'
    unfold insert_hit
    rw [hold']
    dsimp only
    by_cases hlt : old.score < r.score
    · rw [if_pos hlt]
      refine ⟨r, ?_, le_of_lt hlt⟩
      unfold dlookup
      rw [find?_map_replace]
      rcases hf : m.find? (fun p => decide (p.1 = merge_key hs r)) with _ | q
      · rw [hf] at hold'
        simp at hold'
      · have hq := List.find?_some hf
        simp only [decide_eq_true_eq] at hq
        rw [hf]
        simp [hq]
    · rw [if_neg hlt]
      exact ⟨old, hold, le_refl _⟩
  · refine ⟨old, ?_, le_refl _⟩
    rw [dlookup_insert_hit_ne hk]
    exact hold

theorem dlookup_foldl_mono {hs : String → Int} (xs : List SearchHit)
    {m : List (String × SearchHit)} {old : SearchHit} {k : String}
    (hold : dlookup m k = some old) :
    ∃ v, dlookup (xs.foldl (insert_hit hs) m) k = some v ∧ old.score ≤ v.score := by
  induction xs generalizing m old with
  | nil => exact ⟨old, hold, le_refl _⟩
  | cons r xs ih =>
    rcases dlookup_insert_hit_mono hs r hold with ⟨v1, hv1, h1⟩
    rcases ih hv1 with ⟨v, hv, h2⟩
    exact ⟨v, hv, le_trans h1 h2⟩

theorem dlookup_foldl_mem (hs : String → Int) {xs : List SearchHit}
    (m : List (String × SearchHit)) {h : SearchHit} (hmem : h ∈ xs) :
    ∃ v, dlookup (xs.foldl (insert_hit hs) m) (merge_key hs h) = some v ∧
      h.score ≤ v.score := by
  induction xs generalizing m with
  | nil => cases hmem
  | cons r xs ih =>
    rcases List.mem_cons.mp hmem with hr | hxs
    · subst hr
      rcases dlookup_insert_hit_self hs m h with ⟨v1, hv1, hle1⟩
      rcases dlookup_foldl_mono xs hv1 with ⟨v, hv, hle2⟩
      exact ⟨v, hv, le_trans hle1 hle2⟩
    · exact ih _ hxs

theorem score_dominance_foldl {hs : String → Int} {xs : List SearchHit}
    {m : List (String × SearchHit)} {g v : SearchHit} (hmem : g ∈ xs)
    (hv : dlookup (xs.foldl (insert_hit hs) m) (merge_key hs g) = some v) :
    g.score ≤ v.score := by
  rcases dlookup_foldl_mem hs m hmem with ⟨v2, hv2, hle⟩
  rw [hv] at hv2
  injection hv2 with h
  exact h ▸ hle

theorem foldl_insert_hit_no_op {hs : String → Int} {xs : List SearchHit}
    {m : List (String × SearchHit)}
    (hdom : ∀ h ∈ xs, ∃ v, dlookup m (merge_key hs h) = some v ∧ h.score ≤ v.score) :
    xs.foldl (insert_hit hs) m = m := by
  induction xs with
  | nil => rfl
  | cons r xs ih =>
    rcases hdom r (List.mem_cons_self r xs) with ⟨v, hv, hle⟩
    have hstep : insert_hit hs m r = m := insert_hit_of_dominated hv hle
    simp only [List.foldl_cons, hstep]
    exact ih (fun h hh => hdom h (List.mem_cons_of_mem r hh))

theorem mem_foldl_insert_hit {hs : String → Int} {xs : List SearchHit}
    {m : List (String × SearchHit)} {p : String × SearchHit}
    (hp : p ∈ xs.foldl (insert_hit hs) m) :
    p ∈ m ∨ (p.2 ∈ xs ∧ p.1 = merge_key hs p.2) := by
  induction xs generalizing m with
  | nil => exact Or.inl hp
  | cons r xs ih =>
    rcases ih hp with hmem | ⟨hmem, hkey⟩
    · rcases mem_insert_hit hmem with h | h
      · exact Or.inl h
      · exact Or.inr ⟨by rw [h]; exact List.mem_cons_self r xs, by rw [h]⟩
    · exact Or.inr ⟨List.mem_cons_of_mem r hmem, hkey⟩

theorem merged_dict_wf {hs : String → Int} {r1 r2 : List SearchHit}
    {p : String × SearchHit} (hp : p ∈ merged_dict hs r1 r2) :
    p.2 ∈ r1 ++ r2 ∧ p.1 = merge_key hs p.2 := by
  rcases mem_foldl_insert_hit hp with h | h
  · cases h
  · exact h

theorem mem_merge_results {hs : String → Int} {r1 r2 : List SearchHit} {v : SearchHit}
    (hv : v ∈ merge_results hs r1 r2) : v ∈ r1 ++ r2 := by
  unfold merge_results at hv
  rcases List.mem_map.mp ((List.mem_insertionSort score_ge).mp hv) with ⟨p, hp, hsnd⟩
  exact hsnd ▸ (merged_dict_wf hp).1

theorem merge_results_key_surviving (hs : String → Int) {r1 r2 : List SearchHit}
    {h : SearchHit} (hmem : h ∈ r1 ++ r2) :
    ∃ v ∈ merge_results hs r1 r2, merge_key hs v = merge_key hs h ∧
      ∀ g ∈ r1 ++ r2, merge_key hs g = merge_key hs h → g.score ≤ v.score := by
  rcases dlookup_foldl_mem hs [] hmem with ⟨v, hv, _⟩
  unfold dlookup at hv
  rcases hfind : (merged_dict hs r1 r2).find? (fun p => decide (p.1 = merge_key hs h))
    with _ | q
  · unfold merged_dict at hfind
    rw [hfind] at hv
    simp at hv
  · unfold merged_dict at hfind
    rw [hfind] at hv
    simp only [Option.map_some'] at hv
    injection hv with hq2
    have hqmem : q ∈ merged_dict hs r1 r2 := List.mem_of_find?_eq_some hfind
    have hkeq : q.1 = merge_key hs h := by
      have := List.find?_some hfind
      simpa using this
    have hwf := merged_dict_wf hqmem
    refine ⟨v, ?_, ?_, ?_⟩
    · unfold merge_results
      rw [List.mem_insertionSort]
      exact List.mem_map.mpr ⟨q, hqmem, hq2⟩
    · rw [← hq2, ← hwf.2, hkeq]
    · intro g hg hgk
      have : dlookup ((r1 ++ r2).foldl (insert_hit hs) []) (merge_key hs g) = some v := by
        unfold dlookup
        rw [hgk]
        rw [hfind]
        simp [hq2]
      exact score_dominance_foldl hg this

theorem merge_results_sorted {hs : String → Int} (r1 r2 : List SearchHit) :
    (merge_results hs r1 r2).Pairwise (fun a b => b.score ≤ a.score) := by
  unfold merge_results
  have h := List.sorted_insertionSort score_ge ((merged_dict hs r1 r2).map Prod.snd)
  exact h.imp (fun hab => hab)

theorem merged_dict_self_idem {hs : String → Int} (L : List SearchHit) :
    merged_dict hs L L = merged_dict hs L [] := by
  unfold merged_dict
  rw [List.append_nil, List.foldl_append]
  apply foldl_insert_hit_no_op
  intro h hh
  rcases dlookup_foldl_mem hs [] hh with ⟨v, hv, hle⟩
  exact ⟨v, hv, hle⟩

theorem chem_key_packaging_inj {u : Nat} {p1 p2 : String}
    (h : "un_" ++ toString u ++ "_pkg_" ++ p1 = "un_" ++ toString u ++ "_pkg_" ++ p2) :
    p1 = p2 := by
  have hdata := congrArg String.data h
  simp only [String.data_append, List.append_assoc] at hdata
  exact String.ext
    (List.append_cancel_left (List.append_cancel_left (List.append_cancel_left hdata)))

/-- C2 (amended): in a merge of any two hit lists, two chemical hits with the
same identifier whose packaging groups render to different key texts (any two
distinct stored groups render differently; only an absent group and the
literal string "None" coincide) always have distinct surviving
representatives in the output — the two packaging variants are never
collapsed into one entry. -/
theorem merge_keeps_packaging_variants (hs : String → Int) (r1 r2 : List SearchHit)
    (h1 h2 : SearchHit) (c1 c2 : ChemicalRecord)
    (hm1 : h1 ∈ r1 ++ r2) (hm2 : h2 ∈ r1 ++ r2)
    (hc1 : h1.chemical_data = some c1) (hc2 : h2.chemical_data = some c2)
    (hun : c1.un_number = c2.un_number)
    (hpkg : c1.packaging_group.getD "None" ≠ c2.packaging_group.getD "None") :
    ∃ g1 ∈ merge_results hs r1 r2, ∃ g2 ∈ merge_results hs r1 r2,
      merge_key hs g1 = merge_key hs h1 ∧ merge_key hs g2 = merge_key hs h2 ∧
      g1 ≠ g2 := by
  obtain ⟨g1, hg1, hk1, _⟩ := merge_results_key_surviving hs hm1
  obtain ⟨g2, hg2, hk2, _⟩ := merge_results_key_surviving hs hm2
  refine ⟨g1, hg1, g2, hg2, hk1, hk2, ?_⟩
  intro hEq
  apply hpkg
  have hkeys : merge_key hs h1 = merge_key hs h2 := by
    rw [← hk1, ← hk2, hEq]
  unfold merge_key at hkeys
  rw [hc1, hc2] at hkeys
  dsimp only at hkeys
  rw [hun] at hkeys
  exact chem_key_packaging_inj hkeys

/-- C2 witness (the spec's regression case): `un=1133, pkg=I` and
`un=1133, pkg=II` both survive a merge. -/
theorem merge_keeps_packaging_variants_witness :
    ∃ g1 ∈ merge_results hash0 [hit_1133_I] [hit_1133_II],
      ∃ g2 ∈ merge_results hash0 [hit_1133_I] [hit_1133_II],
        merge_key hash0 g1 = merge_key hash0 hit_1133_I ∧
        merge_key hash0 g2 = merge_key hash0 hit_1133_II ∧ g1 ≠ g2 :=
  merge_keeps_packaging_variants hash0 [hit_1133_I] [hit_1133_II] hit_1133_I hit_1133_II
    chem_1133_I chem_1133_II (by decide) (by decide) rfl rfl rfl (by decide)

/-- C2 counterexample: the deduplication key is not the pair
(identifier, packaging group) but its string rendering, so a record with no
packaging group and a record with the literal group "None" — distinct
packaging groups on the same identifier — are collapsed into one surviving
hit. -/
theorem merge_collapses_null_vs_none_string :
    hit_pkg_null.chemical_data = some chem_pkg_null ∧
    hit_pkg_none_string.chemical_data = some chem_pkg_none_string ∧
    chem_pkg_null.un_number = chem_pkg_none_string.un_number ∧
    chem_pkg_null.packaging_group ≠ chem_pkg_none_string.packaging_group ∧
    merge_results hash0 [hit_pkg_null] [hit_pkg_none_string] = [hit_pkg_null] ∧
    hit_pkg_none_string ∉ merge_results hash0 [hit_pkg_null] [hit_pkg_none_string] :=
  ⟨rfl, rfl, rfl, by decide, by decide, by decide⟩

/-- C7: merge is idempotent — merging a list with itself equals merging it
alone, every input key has a surviving representative from the input whose
score is the best score for that key (strictly higher scores displace, ties
keep the earlier hit), the output contains only input hits, it is sorted by
score descending, and stably so (any sorted sublist of the first-seen
dictionary order survives as a sublist of the output). -/
theorem merge_idempotent_ranked (hs : String → Int) (L : List SearchHit) :
    merge_results hs L L = merge_results hs L [] ∧
    (∀ h ∈ L, ∃ v ∈ merge_results hs L L, merge_key hs v = merge_key hs h ∧ v ∈ L ∧
      ∀ g ∈ L, merge_key hs g = merge_key hs h → g.score ≤ v.score) ∧
    (∀ v ∈ merge_results hs L L, v ∈ L) ∧
    (merge_results hs L L).Pairwise (fun a b => b.score ≤ a.score) ∧
    (∀ c : List SearchHit, c.Pairwise score_ge →
      c.Sublist ((merged_dict hs L L).map Prod.snd) →
      c.Sublist (merge_results hs L L)) := by
  refine ⟨?_, ?_, ?_, merge_results_sorted L L, ?_⟩
  · unfold merge_results
    rw [merged_dict_self_idem]
  · intro h hh
    have hmem : h ∈ L ++ L := List.mem_append.mpr (Or.inl hh)
    obtain ⟨v, hv, hk, hdom⟩ := merge_results_key_surviving hs hmem
    refine ⟨v, hv, hk, ?_, ?_⟩
    · rcases List.mem_append.mp (mem_merge_results hv) with h' | h' <;> exact h'
    · intro g hg hgk
      exact hdom g (List.mem_append.mpr (Or.inl hg)) hgk
  · intro v hv
    rcases List.mem_append.mp (mem_merge_results hv) with h' | h' <;> exact h'
  · intro c hc hsub
    exact List.sublist_insertionSort hc hsub

/-- C7 witness: the idempotence and best-score properties evaluated on a
concrete two-element list sharing one key. -/
theorem merge_idempotent_ranked_witness :
    merge_results hash0 [hit_1133_I, hit_1133_II] [hit_1133_I, hit_1133_II] =
      merge_results hash0 [hit_1133_I, hit_1133_II] [] ∧
    ∃ v ∈ merge_results hash0 [hit_1133_I, hit_1133_II] [hit_1133_I, hit_1133_II],
      merge_key hash0 v = merge_key hash0 hit_1133_I ∧
      v ∈ [hit_1133_I, hit_1133_II] ∧
      ∀ g ∈ [hit_1133_I, hit_1133_II],
        merge_key hash0 g = merge_key hash0 hit_1133_I → g.score ≤ v.score := by
  obtain ⟨h1, h2, _, _, _⟩ := merge_idempotent_ranked hash0 [hit_1133_I, hit_1133_II]
  exact ⟨h1, h2 hit_1133_I (by decide)⟩

/-! ## Claim C4: query classification on identifier tokens -/

theorem takeWhile_append_all {p : Char → Bool} {xs ys : List Char}
    (h : ∀ x ∈ xs, p x = true) : (xs ++ ys).takeWhile p = xs ++ ys.takeWhile p := by
  induction xs with
  | nil => simp
  | cons a xs ih =>
    have ha := h a (List.mem_cons_self a xs)
    simp only [List.cons_append, List.takeWhile_cons, ha, if_true]
    rw [ih (fun x hx => h x (List.mem_cons_of_mem a hx))]

theorem not_space_of_digit {c : Char} (h : c.isDigit = true) : is_py_space c = false := by
  cases hx : is_py_space c
  · rfl
  · simp only [is_py_space, Bool.or_eq_true, decide_eq_true_eq] at hx
    rcases hx with ((((h1 | h1) | h1) | h1) | h1) | h1 <;> subst h1 <;>
      exact absurd h (by decide)

theorem word_of_digit {c : Char} (h : c.isDigit = true) : is_word_char c = true := by
  simp [is_word_char, Char.isAlphanum, h]

theorem not_digit_of_not_word {c : Char} (h : is_word_char c = false) :
    c.isDigit = false := by
  cases hd : c.isDigit
  · rfl
  · rw [word_of_digit hd] at h
    cases h

theorem try_alt1_of_parts {prev : Option Char} {ws ds post : List Char} {u n : Char}
    (hb : boundary_ok prev = true) (hu : u = 'U' ∨ u = 'u') (hn : n = 'N' ∨ n = 'n')
    (hws : ∀ c ∈ ws, is_py_space c = true) (hds : ds ≠ [])
    (hdig : ∀ c ∈ ds, c.isDigit = true) (hpost : after_ok post = true) :
    (try_alt1 prev (u :: n :: (ws ++ (ds ++ post)))).isSome = true := by
  have hcond : (boundary_ok prev && (decide (u = 'U') || decide (u = 'u')) &&
      (decide (n = 'N') || decide (n = 'n'))) = true := by
    rcases hu with h1 | h1 <;> rcases hn with h2 | h2 <;> simp [h1, h2, hb]
  have hs1 : (ws ++ (ds ++ post)).takeWhile is_py_space = ws := by
    rw [takeWhile_append_all hws]
    rcases ds with _ | ⟨d, ds'⟩
    · exact absurd rfl hds
    · rw [List.cons_append, List.takeWhile_cons,
        not_space_of_digit (hdig d (List.mem_cons_self d ds'))]
      simp
  have hs2 : (ws ++ (ds ++ post)).drop ws.length = ds ++ post := by
    rw [List.drop_left]
  have hs3 : (ds ++ post).takeWhile Char.isDigit = ds := by
    rw [takeWhile_append_all hdig]
    rcases post with _ | ⟨a, post'⟩
    · simp
    · have hpa : (!is_word_char a) = true := hpost
      have hwa : is_word_char a = false := by
        cases hw : is_word_char a
        · rfl
        · simp [hw] at hpa
      rw [List.takeWhile_cons, not_digit_of_not_word hwa]
      simp
  have hs4 : (ds ++ post).drop ds.length = post := List.drop_left ds post
  have hne : ds.isEmpty = false := by
    rcases ds with _ | _
    · exact absurd rfl hds
    · rfl
  unfold try_alt1
  dsimp only
  rw [if_pos hcond]
  rw [hs1, hs2, hs3, hs4]
  rw [if_pos (by simp [hne, hpost])]
  rfl

theorem try_alt2_of_parts {prev : Option Char} {ds post : List Char}
    (hb : boundary_ok prev = true) (hlen : ds.length = 4)
    (hdig : ∀ c ∈ ds, c.isDigit = true) (hpost : after_ok post = true) :
    (try_alt2 prev (ds ++ post)).isSome = true := by
  rcases ds with _ | ⟨d1, _ | ⟨d2, _ | ⟨d3, _ | ⟨d4, rest⟩⟩⟩⟩ <;>
    simp only [List.length_cons, List.length_nil] at hlen
  · omega
  · omega
  · omega
  · omega
  · have hrest : rest = [] := by
      have : rest.length = 0 := by omega
      exact List.length_eq_zero.mp this
    subst hrest
    have h1 := hdig d1 (by simp)
    have h2 := hdig d2 (by simp)
    have h3 := hdig d3 (by simp)
    have h4 := hdig d4 (by simp)
    unfold try_alt2
    simp only [List.cons_append, List.nil_append]
    rw [if_pos (by simp [hb, h1, h2, h3, h4, hpost])]
    rfl

theorem prev_at_split (pre rest : List Char) :
    (if pre.length = 0 then none else (pre ++ rest).get? (pre.length - 1)) =
      pre.getLast? := by
  rcases hpre : pre with _ | ⟨a, pre'⟩
  · simp
  · rw [if_neg (by simp)]
    rw [List.get?_eq_getElem?]
    rw [List.getElem?_append_left (by simp)]
    rw [List.getLast?_eq_getElem?]

theorem search_un_of_alt {q : String} {pre rest : List Char}
    (hsplit : q.data = pre ++ rest) (hne : rest ≠ [])
    (halt : ((try_alt1 pre.getLast? rest).isSome ||
             (try_alt2 pre.getLast? rest).isSome) = true) :
    search_un q = true := by
  unfold search_un
  rw [List.any_eq_true]
  refine ⟨pre.length, List.mem_range.mpr ?_, ?_⟩
  · rw [hsplit, List.length_append]
    rcases rest with _ | _
    · exact absurd rfl hne
    · simp
  · unfold match_at
    rw [hsplit]
    dsimp only
    rw [prev_at_split, List.drop_left]
    exact halt

/-- C4 (amended): the classifier routes to `un_number` (identifier search)
exactly for the tokens its pattern accepts: a `UN`/`un`-prefixed digit run of
any length at word boundaries, or a standalone number of exactly four digits
— not four *or more* as the claim stated. -/
theorem classifier_identifier_token {q : String} (h : spec_identifier_token q) :
    detect_query_type q = "un_number" := by
  have hsearch : search_un q = true := by
    rcases h with ⟨pre, u, n, ws, ds, post, hsplit, hu, hn, hws, hds, hdig, hb, hpost⟩ |
      ⟨pre, ds, post, hsplit, hlen, hdig, hb, hpost⟩
    · exact search_un_of_alt hsplit (by simp)
        (by rw [try_alt1_of_parts hb hu hn hws hds hdig hpost]; simp)
    · refine search_un_of_alt hsplit ?_ ?_
      · rcases ds with _ | _
        · simp at hlen
        · simp
      · rw [try_alt2_of_parts hb hlen hdig hpost]
        simp
  unfold detect_query_type
  rw [if_pos hsearch]

/-- C4 witness: the classifier instantiated on the query `UN1133`. -/
theorem classifier_identifier_token_witness :
    spec_identifier_token "UN1133" ∧ detect_query_type "UN1133" = "un_number" := by
  have htok : spec_identifier_token "UN1133" :=
    Or.inl ⟨[], 'U', 'N', [], ['1', '1', '3', '3'], [], by decide, Or.inl rfl,
      Or.inl rfl, by simp, by decide, by decide, rfl, rfl⟩
  exact ⟨htok, classifier_identifier_token htok⟩

/-- C4 counterexample: `12345` is an explicit numeric code of four digits or
more, yet the classifier returns `natural_language`, not `un_number` — the
bare-number alternative of the pattern accepts exactly four digits. -/
theorem classifier_misses_five_digit_code :
    "12345".data.all Char.isDigit = true ∧ 4 ≤ "12345".length ∧
    detect_query_type "12345" = "natural_language" :=
  ⟨by decide, by decide, by decide⟩

/-! ## Claims C5 and C10: hybrid-search caps and strategy dispatch -/

/-- C5 (amended): hybrid search runs exact search and semantic search
independently with the cap `top_k / 2 + 1` (integer floor division, not the
claimed ceiling), merges them with the merge algorithm, and returns at most
`top_k` hits; for even `top_k` the floor and ceiling formulas agree. -/
theorem hybrid_search_floor_cap (env : Env) (q : String) (k : Nat) :
    hybrid_search env q k = hybrid_search_capped (fun t => t / 2 + 1) env q k ∧
    (hybrid_search env q k).length ≤ k ∧
    (k % 2 = 0 →
      hybrid_search env q k = hybrid_search_capped (fun t => (t + 1) / 2 + 1) env q k) := by
  refine ⟨rfl, ?_, ?_⟩
  · unfold hybrid_search
    exact List.length_take_le k _
  · intro heven
    have hcap : k / 2 + 1 = (k + 1) / 2 + 1 := by omega
    unfold hybrid_search hybrid_search_capped
    rw [hcap]

/-- C5 witness: on an even `top_k` the source cap and the spec's ceiling cap
produce the same output. -/
theorem hybrid_search_floor_cap_witness :
    hybrid_search env_many "UN1133" 4 =
      hybrid_search_capped (fun t => (t + 1) / 2 + 1) env_many "UN1133" 4 :=
  (hybrid_search_floor_cap env_many "UN1133" 4).2.2 (by decide)

/-- C5 counterexample: with `top_k = 5` and four stored packaging variants of
one identifier, the source returns `5 / 2 + 1 = 3` exact hits while the
claimed ceiling cap `ceil(5/2) + 1 = 4` would return four — the outputs
differ. -/
theorem hybrid_search_cap_counterexample :
    (hybrid_search env_many "UN1133" 5).length = 3 ∧
    (hybrid_search_capped (fun t => (t + 1) / 2 + 1) env_many "UN1133" 5).length = 4 ∧
    hybrid_search env_many "UN1133" 5 ≠
      hybrid_search_capped (fun t => (t + 1) / 2 + 1) env_many "UN1133" 5 :=
  ⟨by decide, by decide, by decide⟩

/-- C10: every strategy string other than `exact`, `semantic` and `hybrid` —
misspelled or arbitrary, not just `auto` — silently dispatches to the auto
strategy and returns its result; no value is ever rejected. -/
theorem retrieve_invalid_strategy_is_auto (env : Env) (q : String) (k : Nat)
    {s : String} (h1 : s ≠ "exact") (h2 : s ≠ "semantic") (h3 : s ≠ "hybrid") :
    retrieve env q s k = retrieve env q "auto" k := by
  unfold retrieve
  rw [if_neg h1, if_neg h2, if_neg h3,
    if_neg (show ¬("auto" : String) = "exact" by decide),
    if_neg (show ¬("auto" : String) = "semantic" by decide),
    if_neg (show ¬("auto" : String) = "hybrid" by decide)]

/-- C10 witness: the invalid strategy string `fuzzy` behaves exactly like
`auto`. -/
theorem retrieve_invalid_strategy_is_auto_witness :
    retrieve env_ok "hello" "fuzzy" 5 = retrieve env_ok "hello" "auto" 5 :=
  retrieve_invalid_strategy_is_auto env_ok "hello" 5 (by decide) (by decide) (by decide)

/-! ## Claim C3: the exact-search postcondition -/

theorem mem_search_by_name {db : List ChemicalRecord} {name : String} {limit : Nat}
    {c : ChemicalRecord} (h : c ∈ search_by_name db name limit) : c ∈ db := by
  unfold search_by_name at h
  exact List.mem_of_mem_filter (List.mem_of_mem_take h)

theorem mem_expansion_loop {db : List ChemicalRecord} {terms : List String} {k : Nat}
    {acc : List ChemicalRecord} {c : ChemicalRecord}
    (h : c ∈ expansion_loop db terms k acc) : c ∈ acc ∨ c ∈ db := by
  induction terms generalizing acc with
  | nil => exact Or.inl h
  | cons t ts ih =>
    unfold expansion_loop at h
    by_cases hlen : k ≤ (acc ++ search_by_name db t k).length
    · rw [if_pos hlen] at h
      rcases List.mem_append.mp h with h' | h'
      · exact Or.inl h'
      · exact Or.inr (mem_search_by_name h')
    · rw [if_neg hlen] at h
      rcases ih h with h' | h'
      · rcases List.mem_append.mp h' with h'' | h''
        · exact Or.inl h''
        · exact Or.inr (mem_search_by_name h'')
      · exact Or.inr h'

theorem mem_un_hits {db : List ChemicalRecord} {q : String} {h : SearchHit}
    (hm : h ∈ un_hits db q) :
    ∃ c, h = mk_exact_un_hit c ∧ c ∈ db ∧ c.un_number ∈ findall_un q := by
  unfold un_hits at hm
  rcases List.mem_flatMap.mp hm with ⟨n, hn, hmap⟩
  rcases List.mem_map.mp hmap with ⟨c, hc, heq⟩
  have hcd : c ∈ db := List.mem_of_mem_filter hc
  have hun : c.un_number = n := by
    have := List.of_mem_filter hc
    simpa using this
  exact ⟨c, heq.symm, hcd, hun ▸ hn⟩

/-- C3 (amended): exact search returns at most `top_k` hits; every hit is
either an identifier hit — an equality-lookup record for one of the
extracted identifiers, with `score = 1.0` and
`metadata.search_type = "exact_un"` (not the claimed `"exact_id"`) — or a
name-fallback hit with `score = 0.9` and `search_type = "exact_name"`; and
the name fallback runs exactly when the identifier lookups produced no hits,
which happens not only when no identifier token is present but also when
every extracted identifier misses the store. -/
theorem exact_search_postcondition (env : Env) (q : String) (k : Nat) :
    (exact_search env q k).length ≤ k ∧
    (∀ h ∈ exact_search env q k,
      (∃ c, h = mk_exact_un_hit c ∧ c ∈ env.db ∧ c.un_number ∈ findall_un q ∧
        h.score = 1 ∧ h.metadata.search_type = some "exact_un") ∨
      (∃ c, h = mk_exact_name_hit c ∧ c ∈ env.db ∧
        h.score = mkRat 9 10 ∧ h.metadata.search_type = some "exact_name")) ∧
    ((un_hits env.db q).isEmpty = false →
      ∀ h ∈ exact_search env q k,
        ∃ c, h = mk_exact_un_hit c ∧ c ∈ env.db ∧ c.un_number ∈ findall_un q) := by
  refine ⟨?_, ?_, ?_⟩
  · unfold exact_search
    exact List.length_take_le k _
  · intro h hm
    unfold exact_search at hm
    have hm' := List.mem_of_mem_take hm
    by_cases hempty : (un_hits env.db q).isEmpty
    · rw [if_pos hempty] at hm'
      right
      rcases List.mem_map.mp hm' with ⟨c, hc, heq⟩
      have hcdb : c ∈ env.db := by
        have hc' := List.mem_of_mem_take hc
        by_cases hnm : (search_by_name env.db q k).isEmpty
        · rw [if_pos hnm] at hc'
          rcases mem_expansion_loop hc' with h' | h'
          · cases h'
          · exact h'
        · rw [if_neg hnm] at hc'
          exact mem_search_by_name hc'
      exact ⟨c, heq.symm, hcdb, by rw [← heq]; rfl, by rw [← heq]; rfl⟩
    · rw [if_neg hempty] at hm'
      left
      rcases mem_un_hits hm' with ⟨c, hceq, hcdb, hun⟩
      exact ⟨c, hceq, hcdb, hun, by rw [hceq]; rfl, by rw [hceq]; rfl⟩
  · intro hne h hm
    unfold exact_search at hm
    have hm' := List.mem_of_mem_take hm
    rw [if_neg (by rw [hne]; exact Bool.false_ne_true)] at hm'
    rcases mem_un_hits hm' with ⟨c, hceq, hcdb, hun⟩
    exact ⟨c, hceq, hcdb, hun⟩

/-- C3 witness: the postcondition evaluated on the query `UN1133` against a
store holding two packaging variants of identifier 1133. -/
theorem exact_search_postcondition_witness :
    (exact_search env_ok "UN1133" 5).length ≤ 5 ∧
    ∃ c, mk_exact_un_hit chem_1133_I = mk_exact_un_hit c ∧ c ∈ env_ok.db ∧
      c.un_number ∈ findall_un "UN1133" := by
  obtain ⟨h1, _, h3⟩ := exact_search_postcondition env_ok "UN1133" 5
  exact ⟨h1, h3 (by decide) (mk_exact_un_hit chem_1133_I) (by decide)⟩

/-- C3 counterexample: on the identifier query `UN1133` every returned hit
has `search_type = "exact_un"`, never the claimed `"exact_id"`; and on the
identifier query `UN9999`, whose lookup misses the store, the code falls
back to the name search and returns a hit with score 0.9 and
`search_type = "exact_name"` even though an identifier token is present. -/
theorem exact_search_counterexample :
    findall_un "UN1133" = [1133] ∧
    (exact_search env_ok "UN1133" 5).length = 2 ∧
    (∀ h ∈ exact_search env_ok "UN1133" 5, h.metadata.search_type ≠ some "exact_id") ∧
    findall_un "UN9999" = [9999] ∧
    exact_search env_odd "UN9999" 5 = [mk_exact_name_hit chem_odd_name] ∧
    (mk_exact_name_hit chem_odd_name).score = mkRat 9 10 ∧
    (mk_exact_name_hit chem_odd_name).metadata.search_type = some "exact_name" :=
  ⟨by decide, by decide, by decide, by decide, by decide, rfl, rfl⟩

/-! ## Claim C9: the semantic-search contract of the vector store -/

theorem format_vec_results_facts {st : VecState} :
    ∀ {pairs : List (ℚ × Int)} {l : List SearchHit},
      format_vec_results st pairs = .ok l →
      l.length ≤ pairs.length ∧
      ∀ h ∈ l, mkRat 1 10 < h.score ∧ ∃ p ∈ pairs, p.1 = h.score := by
  intro pairs
  induction pairs with
  | nil =>
    intro l hl
    unfold format_vec_results at hl
    injection hl with hl
    subst hl
    exact ⟨Nat.le_refl _, fun h hm => absurd hm (List.not_mem_nil h)⟩
  | cons p rest ih =>
    intro l hl
    obtain ⟨score, idx⟩ := p
    unfold format_vec_results at hl
    by_cases hguard : 0 ≤ idx ∧ idx.toNat < st.documents.length ∧ mkRat 1 10 < score
    · rw [if_pos hguard] at hl
      rcases hmd : st.meta.get? idx.toNat with _ | md
      · rw [hmd] at hl
        cases hl
      · rw [hmd] at hl
        dsimp only at hl
        rcases hrest : format_vec_results st rest with e | tail
        · rw [hrest] at hl
          cases hl
        · rw [hrest] at hl
          dsimp only at hl
          injection hl with hl
          obtain ⟨hlen, hmem⟩ := ih hrest
          by_cases hfloor : mkRat 1 10 ≤ score
          · rw [if_pos hfloor] at hl
            subst hl
            refine ⟨by simpa using Nat.succ_le_succ hlen, ?_⟩
            intro h hm
            rcases List.mem_cons.mp hm with heq | htail
            · subst heq
              exact ⟨hguard.2.2, ⟨(score, idx), List.mem_cons_self _ _, rfl⟩⟩
            · obtain ⟨hs, p', hp', hps⟩ := hmem h htail
              exact ⟨hs, p', List.mem_cons_of_mem _ hp', hps⟩
          · rw [if_neg hfloor] at hl
            subst hl
            refine ⟨Nat.le_succ_of_le hlen, ?_⟩
            intro h hm
            obtain ⟨hs, p', hp', hps⟩ := hmem h hm
            exact ⟨hs, p', List.mem_cons_of_mem _ hp', hps⟩
    · rw [if_neg hguard] at hl
      obtain ⟨hlen, hmem⟩ := ih hl
      refine ⟨Nat.le_succ_of_le hlen, ?_⟩
      intro h hm
      obtain ⟨hs, p', hp', hps⟩ := hmem h hm
      exact ⟨hs, p', List.mem_cons_of_mem _ hp', hps⟩

/-- C9 (amended): when the vectorizer has never been trained, semantic
search does not fail with an error — its guard returns the empty list
normally (the `NotFittedError` raised by the encoder is unreachable).  When
the vectorizer is fitted, the nearest-neighbor query is capped at
`min(top_k, index size)` (the configured default standing in when no cap is
passed), every returned score exceeds the hard-coded floor 0.1 and comes
from a returned similarity, scores lie in `[0, 1]` whenever the raw
similarities do, and the retriever layer additionally drops every hit whose
rescored similarity falls below the configured threshold. -/
theorem semantic_search_contract (st : VecState) (q : String) (tk : Nat) :
    (st.fitted = false → vec_semantic_search_core st q (some tk) = .ok []) ∧
    (vec_semantic_search_core st q none =
      vec_semantic_search_core st q (some st.retrieval_top_k)) ∧
    (∀ l, vec_semantic_search_core st q (some tk) = .ok l →
      l.length ≤ (st.ann q (min tk st.ntotal)).length ∧
      ∀ h ∈ l, mkRat 1 10 < h.score ∧ ∃ p ∈ st.ann q (min tk st.ntotal), p.1 = h.score) ∧
    ((st.ann q (min tk st.ntotal)).length ≤ min tk st.ntotal →
      (vec_semantic_search st q (some tk)).length ≤ min tk st.ntotal) ∧
    ((∀ p ∈ st.ann q (min tk st.ntotal), p.1 ≤ 1) →
      ∀ h ∈ vec_semantic_search st q (some tk), 0 ≤ h.score ∧ h.score ≤ 1) ∧
    (∀ env : Env, ∀ Q K, ∀ h ∈ semantic_search_r env Q K,
      env.similarity_threshold ≤ h.score) := by
  have hcore : ∀ l, vec_semantic_search_core st q (some tk) = .ok l →
      l.length ≤ (st.ann q (min tk st.ntotal)).length ∧
      ∀ h ∈ l, mkRat 1 10 < h.score ∧
        ∃ p ∈ st.ann q (min tk st.ntotal), p.1 = h.score := by
    intro l hl
    unfold vec_semantic_search_core at hl
    by_cases h1 : (!st.index_present || st.ntotal == 0) = true
    · rw [if_pos h1] at hl
      injection hl with hl
      subst hl
      exact ⟨Nat.zero_le _, fun h hm => absurd hm (List.not_mem_nil h)⟩
    · rw [if_neg h1] at hl
      by_cases h2 : (!st.fitted) = true
      · rw [if_pos h2] at hl
        injection hl with hl
        subst hl
        exact ⟨Nat.zero_le _, fun h hm => absurd hm (List.not_mem_nil h)⟩
      · rw [if_neg h2] at hl
        have hfit : st.fitted = true := by
          cases hf : st.fitted
          · rw [hf] at h2
            exact absurd rfl h2
          · rfl
        unfold transform_query at hl
        rw [if_pos hfit] at hl
        dsimp only at hl
        exact format_vec_results_facts hl
  refine ⟨?_, rfl, hcore, ?_, ?_, ?_⟩
  · intro hunfit
    unfold vec_semantic_search_core
    by_cases h1 : (!st.index_present || st.ntotal == 0) = true
    · rw [if_pos h1]
    · rw [if_neg h1, if_pos (by rw [hunfit]; rfl)]
  · intro hann
    unfold vec_semantic_search
    rcases hres : vec_semantic_search_core st q (some tk) with e | l
    · exact Nat.zero_le _
    · exact le_trans (hcore l hres).1 hann
  · intro hraw h hm
    unfold vec_semantic_search at hm
    rcases hres : vec_semantic_search_core st q (some tk) with e | l
    · rw [hres] at hm
      exact absurd hm (List.not_mem_nil h)
    · rw [hres] at hm
      obtain ⟨hfloor, p, hp, hps⟩ := (hcore l hres).2 h hm
      constructor
      · have : (0 : ℚ) < mkRat 1 10 := by norm_num
        exact le_of_lt (lt_trans this hfloor)
      · rw [← hps]
        exact hraw p hp
  · intro env Q K h hm
    unfold semantic_search_r at hm
    rcases hvec : env.vec Q K with e | vres
    · rw [hvec] at hm
      exact absurd hm (List.not_mem_nil h)
    · rw [hvec] at hm
      dsimp only at hm
      rcases List.mem_filterMap.mp hm with ⟨r, _, hr⟩
      unfold semantic_rescore at hr
      by_cases hth : env.similarity_threshold ≤ py_max 0 (1 - r.distance.getD 1)
      · rw [if_pos hth] at hr
        injection hr with hr
        rw [← hr]
        exact hth
      · rw [if_neg hth] at hr
        cases hr

/-- C9 witness: the contract evaluated on a fitted two-document state whose
index returns similarities 0.8 and 0.05 — one hit above the floor survives —
and on the retriever layer over a stubbed vector call. -/
theorem semantic_search_contract_witness :
    vec_fitted.fitted = true ∧
    (vec_semantic_search vec_fitted "易燃液体" (some 5)).length ≤ min 5 2 ∧
    (∀ h ∈ vec_semantic_search vec_fitted "易燃液体" (some 5),
      0 ≤ h.score ∧ h.score ≤ 1) := by
  obtain ⟨_, _, _, hcap, hrange, _⟩ := semantic_search_contract vec_fitted "易燃液体" 5
  exact ⟨rfl, hcap (by decide), hrange (by decide)⟩

/-- C9 counterexample: invoked while the vectorizer has never been trained
(on a nonempty index), semantic search returns the empty list normally — it
does not fail with a `NotFittedError`. -/
theorem semantic_search_unfitted_counterexample :
    vec_unfitted.fitted = false ∧ vec_unfitted.ntotal = 1 ∧
    vec_semantic_search_core vec_unfitted "查询" (some 5) = .ok [] ∧
    vec_semantic_search vec_unfitted "查询" (some 5) = [] ∧
    ∀ e, vec_semantic_search_core vec_unfitted "查询" (some 5) ≠ .error e := by
  refine ⟨rfl, rfl, rfl, rfl, ?_⟩
  intro e h
  exact Except.noConfusion h

/-! ## Claim C1: the entry point never raises and contains sub-failures -/

theorem build_structured_result_query (env : Env) (basic : List SearchHit) (q : String) :
    (build_structured_result env basic q).query = q :=
  rfl

theorem fallback_search_query (env : Env) (q : String) (k : Nat) :
    (fallback_search env q k).query = q := by
  unfold fallback_search
  dsimp only
  repeat' split
  all_goals rfl

/-- C1 (amended): `retrieve` is total — for every environment, query,
strategy string and cap it returns normally with a result carrying the
original query — and an internal error is contained at the boundary of the
sub-step in which it occurs, which is converted to an empty sub-result (the
semantic sub-search and regulation association are shown); an error inside
one sub-step therefore does not imply the overall result is empty. -/
theorem retrieve_total_and_contained :
    (∀ (env : Env) (q s : String) (k : Nat), (retrieve env q s k).query = q) ∧
    (∀ (env : Env) (q : String) (k : Nat) (e : String),
      env.vec q k = .error e → semantic_search_r env q k = []) ∧
    (∀ (env : Env) (chems : List SearchHit) (q : String) (e : String),
      find_related_regulations_core env chems = .error e →
      find_related_regulations env chems q = []) := by
  refine ⟨?_, ?_, ?_⟩
  · intro env q s k
    unfold retrieve
    dsimp only
    repeat' split
    all_goals first
      | exact fallback_search_query env q k
      | exact build_structured_result_query env _ q
  · intro env q k e herr
    unfold semantic_search_r
    rw [herr]
  · intro env chems q e herr
    unfold find_related_regulations
    rw [herr]

/-- C1 witness: with a vector store that fails on every call, `retrieve`
still returns normally with the query preserved, and the failed semantic
sub-search is the empty list. -/
theorem retrieve_total_and_contained_witness :
    (retrieve env_fail "酒精" "exact" 5).query = "酒精" ∧
    semantic_search_r env_fail "酒精" 5 = [] := by
  obtain ⟨h1, h2, _⟩ := retrieve_total_and_contained
  exact ⟨h1 env_fail "酒精" "exact" 5, h2 env_fail "酒精" 5 "faiss down" rfl⟩

/-- C1 counterexample: an internal error does occur in this pipeline run —
the vector collaborator raises inside regulation association and is caught
there — yet `retrieve` returns a nonempty result, not the empty
`RetrievalResult` the claim requires for any internal error. -/
theorem retrieve_internal_error_not_empty :
    env_fail.vec "1170" 3 = .error "faiss down" ∧
    find_related_regulations_core env_fail [mk_exact_name_hit chem_alcohol] =
      .error "faiss down" ∧
    (retrieve env_fail "酒精" "exact" 5).chemical_data =
      [mk_exact_name_hit chem_alcohol] ∧
    (retrieve env_fail "酒精" "exact" 5).chemical_data ≠ [] :=
  ⟨rfl, rfl, by decide, by decide⟩

/-! ## Claim C6: the tier short-circuit of regulation association -/

theorem add_regs_flag_mono : ∀ (regs : List SearchHit) (st : List SearchHit × Bool),
    st.2 = true → (add_regs regs st).2 = true := by
  intro regs
  induction regs with
  | nil => intro st h; exact h
  | cons reg rest ih =>
    intro st h
    unfold add_regs
    split
    · exact ih _ rfl
    · exact ih _ h

theorem add_regs_inv : ∀ (regs : List SearchHit) (st : List SearchHit × Bool),
    (st.1 ≠ [] → st.2 = true) →
    ((add_regs regs st).1 ≠ [] → (add_regs regs st).2 = true) := by
  intro regs
  induction regs with
  | nil => intro st h; exact h
  | cons reg rest ih =>
    intro st hinv
    unfold add_regs
    split
    · exact ih _ (fun _ => rfl)
    · exact ih _ hinv

theorem add_regs_activate : ∀ (regs : List SearchHit) (st : List SearchHit × Bool)
    (r : SearchHit), (st.1 ≠ [] → st.2 = true) → r ∈ regs →
    r.metadata.source = some "appendix_a" → (add_regs regs st).2 = true := by
  intro regs
  induction regs with
  | nil => intro st r _ hr _; cases hr
  | cons reg rest ih =>
    intro st r hinv hr hsrc
    unfold add_regs
    rcases List.mem_cons.mp hr with heq | hrest
    · subst heq
      split
      · exact add_regs_flag_mono rest _ rfl
      · rename_i hcond
        have hmem : r ∈ st.1 := by
          by_contra hnm
          exact hcond ⟨hsrc, hnm⟩
        have hflag : st.2 = true := hinv (fun hnil => by rw [hnil] at hmem; cases hmem)
        exact add_regs_flag_mono rest _ hflag
    · split
      · exact ih _ r (fun _ => rfl) hrest hsrc
      · exact ih _ r hinv hrest hsrc

theorem foldl_step_vec_error (env : Env) (k : Nat) (ts : List String) (e : String) :
    ts.foldl (step_vec_add env k) (.error e) = .error e := by
  induction ts with
  | nil => rfl
  | cons t ts ih =>
    rw [List.foldl_cons]
    exact ih

theorem foldl_step_vec_mono_inv (env : Env) (k : Nat) :
    ∀ (ts : List String) (st st' : List SearchHit × Bool),
    ts.foldl (step_vec_add env k) (.ok st) = .ok st' →
    (st.2 = true → st'.2 = true) ∧
    ((st.1 ≠ [] → st.2 = true) → (st'.1 ≠ [] → st'.2 = true)) := by
  intro ts
  induction ts with
  | nil =>
    intro st st' h
    injection h with h
    subst h
    exact ⟨id, id⟩
  | cons t ts ih =>
    intro st st' h
    rw [List.foldl_cons] at h
    rcases hv : env.vec t k with e | regs
    · rw [show step_vec_add env k (.ok st) t = .error e from by
        unfold step_vec_add; rw [hv]] at h
      rw [foldl_step_vec_error env k ts e] at h
      cases h
    · rw [show step_vec_add env k (.ok st) t = .ok (add_regs regs st) from by
        unfold step_vec_add; rw [hv]] at h
      obtain ⟨hm, hi⟩ := ih _ _ h
      exact ⟨fun hf => hm (add_regs_flag_mono regs st hf),
             fun hinv => hi (add_regs_inv regs st hinv)⟩

theorem foldl_step_vec_activate (env : Env) (k : Nat) :
    ∀ (ts : List String) (st st' : List SearchHit × Bool) (t : String)
      (l : List SearchHit) (r : SearchHit),
    (st.1 ≠ [] → st.2 = true) → t ∈ ts → env.vec t k = .ok l → r ∈ l →
    r.metadata.source = some "appendix_a" →
    ts.foldl (step_vec_add env k) (.ok st) = .ok st' → st'.2 = true := by
  intro ts
  induction ts with
  | nil =>
    intro st st' t l r _ ht _ _ _ _
    cases ht
  | cons t0 ts ih =>
    intro st st' t l r hinv ht hvec hr hsrc h
    rw [List.foldl_cons] at h
    rcases hv : env.vec t0 k with e | regs
    · rw [show step_vec_add env k (.ok st) t0 = .error e from by
        unfold step_vec_add; rw [hv]] at h
      rw [foldl_step_vec_error env k ts e] at h
      cases h
    · rw [show step_vec_add env k (.ok st) t0 = .ok (add_regs regs st) from by
        unfold step_vec_add; rw [hv]] at h
      rcases List.mem_cons.mp ht with heq | hts
      · subst heq
        rw [hvec] at hv
        injection hv with hv
        rw [hv] at hr
        have hflag : (add_regs regs st).2 = true := add_regs_activate regs st r hinv hr hsrc
        exact (foldl_step_vec_mono_inv env k ts _ _ h).1 hflag
      · exact ih _ _ t l r (add_regs_inv regs st hinv) hts hvec hr hsrc h

theorem process_chemical_mono_inv (env : Env) (cd : Option ChemicalRecord)
    (st st' : List SearchHit × Bool)
    (h : process_chemical env (.ok st) cd = .ok st') :
    (st.2 = true → st'.2 = true) ∧
    ((st.1 ≠ [] → st.2 = true) → (st'.1 ≠ [] → st'.2 = true)) := by
  unfold process_chemical at h
  rcases cd with _ | c
  · injection h with h
    subst h
    exact ⟨id, id⟩
  · dsimp only at h
    rcases h1 : (provision_tokens c).foldl (step_vec_add env 5) (.ok st) with e | st1
    · rw [h1] at h
      cases h
    · rw [h1] at h
      dsimp only at h
      obtain ⟨hm1, hi1⟩ := foldl_step_vec_mono_inv env 5 _ st st1 h1
      by_cases hflag : st1.2 = true
      · rw [if_pos hflag] at h
        injection h with h
        subst h
        exact ⟨fun _ => hflag, fun _ _ => hflag⟩
      · rw [if_neg hflag] at h
        rcases h2 : (if c.un_number ≠ 0 then
            step_vec_add env 3 (.ok st1) (toString c.un_number)
          else .ok st1) with e | st2
        · rw [h2] at h
          cases h
        · rw [h2] at h
          dsimp only at h
          have hstep2 : (st1.2 = true → st2.2 = true) ∧
              ((st1.1 ≠ [] → st1.2 = true) → (st2.1 ≠ [] → st2.2 = true)) := by
            by_cases hun : c.un_number ≠ 0
            · rw [if_pos hun] at h2
              rcases hv : env.vec (toString c.un_number) 3 with e | regs
              · rw [show step_vec_add env 3 (.ok st1) (toString c.un_number) = .error e from by
                  unfold step_vec_add; rw [hv]] at h2
                cases h2
              · rw [show step_vec_add env 3 (.ok st1) (toString c.un_number) =
                    .ok (add_regs regs st1) from by unfold step_vec_add; rw [hv]] at h2
                injection h2 with h2
                subst h2
                exact ⟨add_regs_flag_mono regs st1, add_regs_inv regs st1⟩
            · rw [if_neg hun] at h2
              injection h2 with h2
              subst h2
              exact ⟨id, id⟩
          by_cases hname : ¬st2.2 = true ∧ name_truthy c = true
          · rw [if_pos hname] at h
            obtain ⟨hm3, hi3⟩ := foldl_step_vec_mono_inv env 3 _ st2 st' h
            refine ⟨fun hf => absurd (hstep2.1 (hm1 hf)) hname.1,
                    fun hinv => hi3 (hstep2.2 (hi1 hinv))⟩
          · rw [if_neg hname] at h
            injection h with h
            subst h
            exact ⟨fun hf => hstep2.1 (hm1 hf), fun hinv => hstep2.2 (hi1 hinv)⟩

theorem process_chemical_activate (env : Env) (c : ChemicalRecord)
    (st st' : List SearchHit × Bool) (p : String) (l : List SearchHit) (r : SearchHit)
    (hinv : st.1 ≠ [] → st.2 = true) (hp : p ∈ provision_tokens c)
    (hvec : env.vec p 5 = .ok l) (hr : r ∈ l)
    (hsrc : r.metadata.source = some "appendix_a")
    (h : process_chemical env (.ok st) (some c) = .ok st') : st'.2 = true := by
  unfold process_chemical at h
  dsimp only at h
  rcases h1 : (provision_tokens c).foldl (step_vec_add env 5) (.ok st) with e | st1
  · rw [h1] at h
    cases h
  · rw [h1] at h
    dsimp only at h
    have hflag1 : st1.2 = true :=
      foldl_step_vec_activate env 5 _ st st1 p l r hinv hp hvec hr hsrc h1
    rw [if_pos hflag1] at h
    injection h with h
    subst h
    exact hflag1

theorem related_loop_aux_error (env : Env) (e : String) (chems : List SearchHit) :
    chems.foldl (fun s h => process_chemical env s h.chemical_data) (.error e) =
      .error e := by
  induction chems with
  | nil => rfl
  | cons c rest ih =>
    rw [List.foldl_cons]
    exact ih

theorem related_loop_flag_mono (env : Env) :
    ∀ (chems : List SearchHit) (st0 st : List SearchHit × Bool), st0.2 = true →
    chems.foldl (fun s h => process_chemical env s h.chemical_data) (.ok st0) = .ok st →
    st.2 = true := by
  intro chems
  induction chems with
  | nil =>
    intro st0 st h0 h
    injection h with h
    subst h
    exact h0
  | cons c0 rest ih =>
    intro st0 st h0 h
    rw [List.foldl_cons] at h
    rcases hstep : process_chemical env (.ok st0) c0.chemical_data with e | st1
    · rw [hstep] at h
      rw [related_loop_aux_error env e rest] at h
      cases h
    · rw [hstep] at h
      exact ih st1 st ((process_chemical_mono_inv env c0.chemical_data st0 st1 hstep).1 h0) h

theorem related_loop_activate (env : Env) :
    ∀ (chems : List SearchHit) (st0 st : List SearchHit × Bool),
    (st0.1 ≠ [] → st0.2 = true) →
    (∃ h ∈ chems, ∃ c, h.chemical_data = some c ∧ ∃ p ∈ provision_tokens c,
      ∃ l, env.vec p 5 = .ok l ∧ ∃ r ∈ l, r.metadata.source = some "appendix_a") →
    chems.foldl (fun s h => process_chemical env s h.chemical_data) (.ok st0) = .ok st →
    st.2 = true := by
  intro chems
  induction chems with
  | nil =>
    intro st0 st _ hex _
    rcases hex with ⟨h, hm, _⟩
    cases hm
  | cons c0 rest ih =>
    intro st0 st hinv hex hfold
    rw [List.foldl_cons] at hfold
    rcases hstep : process_chemical env (.ok st0) c0.chemical_data with e | st1
    · rw [hstep] at hfold
      rw [related_loop_aux_error env e rest] at hfold
      cases hfold
    · rw [hstep] at hfold
      rcases hex with ⟨h, hm, c, hc, p, hp, l, hvec, r, hr, hsrc⟩
      rcases List.mem_cons.mp hm with heq | hrest
      · subst heq
        rw [hc] at hstep
        have hflag1 : st1.2 = true :=
          process_chemical_activate env c st0 st1 p l r hinv hp hvec hr hsrc hstep
        exact related_loop_flag_mono env rest st1 st hflag1 hfold
      · exact ih st1 st
          ((process_chemical_mono_inv env c0.chemical_data st0 st1 hstep).2 hinv)
          ⟨h, hrest, c, hc, p, hp, l, hvec, r, hr, hsrc⟩ hfold

theorem find_related_core_shape {env : Env} {chems : List SearchHit}
    {l : List SearchHit} (h : find_related_regulations_core env chems = .ok l) :
    ∃ l', l = (List.insertionSort score_ge l').take 3 := by
  unfold find_related_regulations_core at h
  rcases hloop : related_loop env chems with e | st
  · rw [hloop] at h
    cases h
  · rw [hloop] at h
    dsimp only at h
    rcases hcat : (if st.2 then Except.ok st.1 else category_pass env chems st.1)
      with e | l2
    · rw [hcat] at h
      cases h
    · rw [hcat] at h
      dsimp only at h
      injection h with h
      exact ⟨l2, h.symm⟩

/-- C6: if any purely-numeric special-provision search for any chemical of
the batch yields a regulation-corpus hit, the returned list never contains a
category-fallback hit: either a later collaborator failure empties the whole
list, or the loop finishes with `found_specific` set, the category pass is
skipped, and the output is built from the loop tiers alone; in all cases the
final list is sorted by score descending and holds at most three hits. -/
theorem regulation_tier_short_circuit (env : Env) (chems : List SearchHit) (q : String) :
    ((∃ h ∈ chems, ∃ c, h.chemical_data = some c ∧ ∃ p ∈ provision_tokens c,
        ∃ l, env.vec p 5 = .ok l ∧ ∃ r ∈ l, r.metadata.source = some "appendix_a") →
      (find_related_regulations env chems q = [] ∨
       ∃ st, related_loop env chems = .ok st ∧ st.2 = true ∧
         find_related_regulations env chems q =
           (List.insertionSort score_ge st.1).take 3)) ∧
    (find_related_regulations env chems q).length ≤ 3 ∧
    (find_related_regulations env chems q).Pairwise (fun a b => b.score ≤ a.score) := by
  refine ⟨?_, ?_, ?_⟩
  · intro hex
    rcases hloop : related_loop env chems with e | st
    · left
      unfold find_related_regulations find_related_regulations_core
      rw [hloop]
    · have hflag : st.2 = true := related_loop_activate env chems ([], false) st
        (fun hnil => absurd (rfl : ([] : List SearchHit) = []) hnil) hex hloop
      right
      refine ⟨st, rfl, hflag, ?_⟩
      unfold find_related_regulations find_related_regulations_core
      rw [hloop]
      dsimp only
      rw [if_pos hflag]
  · rcases hcore : find_related_regulations_core env chems with e | l
    · unfold find_related_regulations
      rw [hcore]
      exact Nat.zero_le _
    · unfold find_related_regulations
      rw [hcore]
      rcases find_related_core_shape hcore with ⟨l', hl⟩
      rw [hl]
      exact List.length_take_le _ _
  · rcases hcore : find_related_regulations_core env chems with e | l
    · unfold find_related_regulations
      rw [hcore]
      exact List.Pairwise.nil
    · unfold find_related_regulations
      rw [hcore]
      rcases find_related_core_shape hcore with ⟨l', hl⟩
      rw [hl]
      have hsorted := List.sorted_insertionSort score_ge l'
      exact (List.Pairwise.sublist (List.take_sublist 3 _) hsorted).imp (fun hab => hab)

/-- C6 witness: a chemical with special provision tokens `123 A7` whose
numeric-token search returns one regulation-corpus hit; the loop sets
`found_specific`, the category pass never contributes, and the output is the
sorted, truncated loop list. -/
theorem regulation_tier_short_circuit_witness :
    (find_related_regulations env_reg [mk_exact_un_hit chem_1133_I] "q" = [] ∨
     ∃ st, related_loop env_reg [mk_exact_un_hit chem_1133_I] = .ok st ∧
       st.2 = true ∧
       find_related_regulations env_reg [mk_exact_un_hit chem_1133_I] "q" =
         (List.insertionSort score_ge st.1).take 3) ∧
    (find_related_regulations env_reg [mk_exact_un_hit chem_1133_I] "q").length ≤ 3 := by
  obtain ⟨h1, h2, _⟩ := regulation_tier_short_circuit env_reg [mk_exact_un_hit chem_1133_I] "q"
  refine ⟨h1 ⟨mk_exact_un_hit chem_1133_I, by decide, chem_1133_I, rfl, "123", by decide,
    [reg_hit0], rfl, reg_hit0, by decide, rfl⟩, h2⟩

/-! ## Claim C8: hit typing and key separation

Provenance: every hit accumulated by regulation association comes from some
vector-store call.  The predicate is inlined as
`∃ t kk l, env.vec t kk = .ok l ∧ x ∈ l`. -/

theorem mem_add_regs : ∀ (regs : List SearchHit) (st : List SearchHit × Bool)
    (x : SearchHit), x ∈ (add_regs regs st).1 → x ∈ st.1 ∨ x ∈ regs := by
  intro regs
  induction regs with
  | nil => intro st x hx; exact Or.inl hx
  | cons reg rest ih =>
    intro st x hx
    unfold add_regs at hx
    rcases hcond : decide (reg.metadata.source = some "appendix_a" ∧ reg ∉ st.1) with _ | _
    · rw [if_neg (of_decide_eq_false hcond)] at hx
      rcases ih st x hx with h | h
      · exact Or.inl h
      · exact Or.inr (List.mem_cons_of_mem reg h)
    · rw [if_pos (of_decide_eq_true hcond)] at hx
      rcases ih _ x hx with h | h
      · rcases List.mem_append.mp h with h' | h'
        · exact Or.inl h'
        · exact Or.inr (by rw [List.mem_singleton.mp h']; exact List.mem_cons_self reg rest)
      · exact Or.inr (List.mem_cons_of_mem reg h)

theorem mem_foldl_step_vec (env : Env) (k : Nat) :
    ∀ (ts : List String) (st st' : List SearchHit × Bool),
    ts.foldl (step_vec_add env k) (.ok st) = .ok st' →
    ∀ x ∈ st'.1, x ∈ st.1 ∨ ∃ t kk l, env.vec t kk = .ok l ∧ x ∈ l := by
  intro ts
  induction ts with
  | nil =>
    intro st st' h x hx
    injection h with h
    subst h
    exact Or.inl hx
  | cons t0 ts ih =>
    intro st st' h x hx
    rw [List.foldl_cons] at h
    rcases hv : env.vec t0 k with e | regs
    · rw [show step_vec_add env k (.ok st) t0 = .error e from by
        unfold step_vec_add; rw [hv]] at h
      rw [foldl_step_vec_error env k ts e] at h
      cases h
    · rw [show step_vec_add env k (.ok st) t0 = .ok (add_regs regs st) from by
        unfold step_vec_add; rw [hv]] at h
      rcases ih _ _ h x hx with hmem | hfrom
      · rcases mem_add_regs regs st x hmem with h' | h'
        · exact Or.inl h'
        · exact Or.inr ⟨t0, k, regs, hv, h'⟩
      · exact Or.inr hfrom

theorem mem_process_chemical (env : Env) (cd : Option ChemicalRecord)
    (st st' : List SearchHit × Bool)
    (h : process_chemical env (.ok st) cd = .ok st') :
    ∀ x ∈ st'.1, x ∈ st.1 ∨ ∃ t kk l, env.vec t kk = .ok l ∧ x ∈ l := by
  unfold process_chemical at h
  rcases cd with _ | c
  · injection h with h
    subst h
    exact fun x hx => Or.inl hx
  · dsimp only at h
    rcases h1 : (provision_tokens c).foldl (step_vec_add env 5) (.ok st) with e | st1
    · rw [h1] at h
      cases h
    · rw [h1] at h
      dsimp only at h
      have hfirst := mem_foldl_step_vec env 5 _ st st1 h1
      by_cases hflag : st1.2 = true
      · rw [if_pos hflag] at h
        injection h with h
        subst h
        exact hfirst
      · rw [if_neg hflag] at h
        rcases h2 : (if c.un_number ≠ 0 then
            step_vec_add env 3 (.ok st1) (toString c.un_number)
          else .ok st1) with e | st2
        · rw [h2] at h
          cases h
        · rw [h2] at h
          dsimp only at h
          have hsecond : ∀ x ∈ st2.1, x ∈ st1.1 ∨
              ∃ t kk l, env.vec t kk = .ok l ∧ x ∈ l := by
            by_cases hun : c.un_number ≠ 0
            · rw [if_pos hun] at h2
              rcases hv : env.vec (toString c.un_number) 3 with e | regs
              · rw [show step_vec_add env 3 (.ok st1) (toString c.un_number) = .error e from by
                  unfold step_vec_add; rw [hv]] at h2
                cases h2
              · rw [show step_vec_add env 3 (.ok st1) (toString c.un_number) =
                    .ok (add_regs regs st1) from by unfold step_vec_add; rw [hv]] at h2
                injection h2 with h2
                subst h2
                intro x hx
                rcases mem_add_regs regs st1 x hx with h' | h'
                · exact Or.inl h'
                · exact Or.inr ⟨toString c.un_number, 3, regs, hv, h'⟩
            · rw [if_neg hun] at h2
              injection h2 with h2
              subst h2
              exact fun x hx => Or.inl hx
          have hthird : ∀ x ∈ st'.1, x ∈ st2.1 ∨
              ∃ t kk l, env.vec t kk = .ok l ∧ x ∈ l := by
            by_cases hname : ¬st2.2 = true ∧ name_truthy c = true
            · rw [if_pos hname] at h
              exact mem_foldl_step_vec env 3 _ st2 st' h
            · rw [if_neg hname] at h
              injection h with h
              subst h
              exact fun x hx => Or.inl hx
          intro x hx
          rcases hthird x hx with h' | h'
          · rcases hsecond x h' with h'' | h''
            · rcases hfirst x h'' with h3 | h3
              · exact Or.inl h3
              · exact Or.inr h3
            · exact Or.inr h''
          · exact Or.inr h'

theorem mem_related_loop (env : Env) :
    ∀ (chems : List SearchHit) (st0 st : List SearchHit × Bool),
    chems.foldl (fun s h => process_chemical env s h.chemical_data) (.ok st0) = .ok st →
    ∀ x ∈ st.1, x ∈ st0.1 ∨ ∃ t kk l, env.vec t kk = .ok l ∧ x ∈ l := by
  intro chems
  induction chems with
  | nil =>
    intro st0 st h x hx
    injection h with h
    subst h
    exact Or.inl hx
  | cons c0 rest ih =>
    intro st0 st h x hx
    rw [List.foldl_cons] at h
    rcases hstep : process_chemical env (.ok st0) c0.chemical_data with e | st1
    · rw [hstep] at h
      rw [related_loop_aux_error env e rest] at h
      cases h
    · rw [hstep] at h
      rcases ih st1 st h x hx with hmem | hfrom
      · exact mem_process_chemical env c0.chemical_data st0 st1 hstep x hmem
      · exact Or.inr hfrom

theorem mem_add_regs_cat : ∀ (regs related : List SearchHit) (x : SearchHit),
    x ∈ add_regs_cat regs related → x ∈ related ∨ x ∈ regs := by
  intro regs
  induction regs with
  | nil => intro related x hx; exact Or.inl hx
  | cons reg rest ih =>
    intro related x hx
    unfold add_regs_cat at hx
    rcases hcond : decide (reg.metadata.source = some "appendix_a" ∧ reg ∉ related)
      with _ | _
    · rw [if_neg (of_decide_eq_false hcond)] at hx
      rcases ih related x hx with h | h
      · exact Or.inl h
      · exact Or.inr (List.mem_cons_of_mem reg h)
    · rw [if_pos (of_decide_eq_true hcond)] at hx
      rcases ih _ x hx with h | h
      · rcases List.mem_append.mp h with h' | h'
        · exact Or.inl h'
        · exact Or.inr (by rw [List.mem_singleton.mp h']; exact List.mem_cons_self reg rest)
      · exact Or.inr (List.mem_cons_of_mem reg h)

theorem foldl_category_step_error (env : Env) (ts : List String) (e : String) :
    ts.foldl (category_step env) (.error e) = .error e := by
  induction ts with
  | nil => rfl
  | cons t ts ih =>
    rw [List.foldl_cons]
    exact ih

theorem foldl_category_pass_error (env : Env) (cats : List String) (e : String) :
    cats.foldl (fun s c => (["第" ++ c ++ "类", "类别" ++ c]).foldl (category_step env) s)
      (.error e) = .error e := by
  induction cats with
  | nil => rfl
  | cons c cs ih =>
    rw [List.foldl_cons, foldl_category_step_error env _ e]
    exact ih

theorem mem_category_foldl (env : Env) :
    ∀ (ts : List String) (related l : List SearchHit),
    ts.foldl (category_step env) (.ok related) = .ok l →
    ∀ x ∈ l, x ∈ related ∨ ∃ t kk l', env.vec t kk = .ok l' ∧ x ∈ l' := by
  intro ts
  induction ts with
  | nil =>
    intro related l h x hx
    injection h with h
    subst h
    exact Or.inl hx
  | cons t0 ts ih =>
    intro related l h x hx
    rw [List.foldl_cons] at h
    rcases hv : env.vec t0 2 with e | regs
    · rw [show category_step env (.ok related) t0 = .error e from by
        unfold category_step; rw [hv]] at h
      rw [foldl_category_step_error env ts e] at h
      cases h
    · rw [show category_step env (.ok related) t0 = .ok (add_regs_cat regs related) from by
        unfold category_step; rw [hv]] at h
      rcases ih _ _ h x hx with hmem | hfrom
      · rcases mem_add_regs_cat regs related x hmem with h' | h'
        · exact Or.inl h'
        · exact Or.inr ⟨t0, 2, regs, hv, h'⟩
      · exact Or.inr hfrom

theorem mem_category_pass (env : Env) (chems : List SearchHit)
    (related l : List SearchHit) (h : category_pass env chems related = .ok l) :
    ∀ x ∈ l, x ∈ related ∨ ∃ t kk l', env.vec t kk = .ok l' ∧ x ∈ l' := by
  unfold category_pass at h
  generalize hcats : (chemical_categories chems).take 2 = cats at h
  clear hcats
  induction cats generalizing related with
  | nil =>
    injection h with h
    subst h
    exact fun x hx => Or.inl hx
  | cons cat cats ih =>
    rw [List.foldl_cons] at h
    rcases hinner : (["第" ++ cat ++ "类", "类别" ++ cat]).foldl (category_step env)
        (.ok related) with e | mid
    · rw [hinner] at h
      rw [foldl_category_pass_error env cats e] at h
      cases h
    · rw [hinner] at h
      intro x hx
      rcases ih mid h x hx with hmem | hfrom
      · rcases mem_category_foldl env _ related mid hinner x hmem with h' | h'
        · exact Or.inl h'
        · exact Or.inr h'
      · exact Or.inr hfrom

theorem mem_find_related_regulations (env : Env) (chems : List SearchHit) (q : String) :
    ∀ x ∈ find_related_regulations env chems q,
      ∃ t kk l, env.vec t kk = .ok l ∧ x ∈ l := by
  intro x hx
  unfold find_related_regulations at hx
  rcases hcore : find_related_regulations_core env chems with e | l
  · rw [hcore] at hx
    cases hx
  · rw [hcore] at hx
    unfold find_related_regulations_core at hcore
    rcases hloop : related_loop env chems with e | st
    · rw [hloop] at hcore
      cases hcore
    · rw [hloop] at hcore
      dsimp only at hcore
      rcases hcat : (if st.2 then Except.ok st.1 else category_pass env chems st.1)
        with e | l2
      · rw [hcat] at hcore
        cases hcore
      · rw [hcat] at hcore
        dsimp only at hcore
        injection hcore with hcore
        subst hcore
        have hx2 : x ∈ l2 := (List.mem_insertionSort score_ge).mp (List.mem_of_mem_take hx)
        have hl2 : ∀ y ∈ l2, y ∈ st.1 ∨ ∃ t kk l', env.vec t kk = .ok l' ∧ y ∈ l' := by
          by_cases hflag : st.2 = true
          · rw [if_pos hflag] at hcat
            injection hcat with hcat
            subst hcat
            exact fun y hy => Or.inl hy
          · rw [if_neg hflag] at hcat
            exact mem_category_pass env chems st.1 l2 hcat
        rcases hl2 x hx2 with hmem | hfrom
        · rcases mem_related_loop env chems ([], false) st hloop x hmem with h' | h'
          · cases h'
          · exact h'
        · exact hfrom

theorem mem_insert_reg {hs : String → Int} {m : List (String × SearchHit)}
    {r : SearchHit} {p : String × SearchHit} (hp : p ∈ insert_reg hs m r) :
    p ∈ m ∨ p = (reg_key hs r, r) := by
  unfold insert_reg at hp
  split at hp
  · exact Or.inl hp
  · rcases List.mem_append.mp hp with h | h
    · exact Or.inl h
    · exact Or.inr (List.mem_singleton.mp h)

theorem mem_merge_regulations {hs : String → Int} {r1 r2 : List SearchHit}
    {v : SearchHit} (hv : v ∈ merge_regulations hs r1 r2) : v ∈ r1 ++ r2 := by
  unfold merge_regulations at hv
  rcases List.mem_map.mp ((List.mem_insertionSort score_ge).mp hv) with ⟨p, hp, hsnd⟩
  subst hsnd
  have : ∀ (xs : List SearchHit) (m : List (String × SearchHit)),
      p ∈ xs.foldl (insert_reg hs) m → p ∈ m ∨ p.2 ∈ xs := by
    intro xs
    induction xs with
    | nil => intro m h; exact Or.inl h
    | cons x xs ih =>
      intro m h
      rw [List.foldl_cons] at h
      rcases ih _ h with h' | h'
      · rcases mem_insert_reg h' with h'' | h''
        · exact Or.inl h''
        · right
          rw [h'']
          exact List.mem_cons_self x xs
      · exact Or.inr (List.mem_cons_of_mem x h')
  rcases this (r1 ++ r2) [] hp with h | h
  · cases h
  · exact h

theorem semantic_search_r_no_chem (env : Env) (q : String) (k : Nat) :
    ∀ h ∈ semantic_search_r env q k, h.chemical_data = none := by
  intro h hm
  unfold semantic_search_r at hm
  rcases hv : env.vec q k with e | vres
  · rw [hv] at hm
    cases hm
  · rw [hv] at hm
    dsimp only at hm
    rcases List.mem_filterMap.mp hm with ⟨r, _, hr⟩
    unfold semantic_rescore at hr
    dsimp only at hr
    split at hr
    · injection hr with hr
      rw [← hr]
    · cases hr

theorem exact_search_doc_type (env : Env) (q : String) (k : Nat) :
    ∀ h ∈ exact_search env q k,
      h.chemical_data.isSome = true ∧ h.metadata.doc_type = some "chemical" := by
  intro h hm
  rcases (exact_search_postcondition env q k).2.1 h hm with
    ⟨c, heq, _, _, _, _⟩ | ⟨c, heq, _, _, _⟩ <;> subst heq <;> exact ⟨rfl, rfl⟩

theorem hybrid_search_chem_doc_type (env : Env) (q : String) (k : Nat) :
    ∀ h ∈ hybrid_search env q k,
      h.chemical_data.isSome = true → h.metadata.doc_type = some "chemical" := by
  intro h hm hsome
  unfold hybrid_search at hm
  rcases List.mem_append.mp (mem_merge_results (List.mem_of_mem_take hm)) with he | hs
  · exact (exact_search_doc_type env q _ h he).2
  · rw [semantic_search_r_no_chem env q _ h hs] at hsome
    cases hsome

theorem auto_search_chem_doc_type (env : Env) (q : String) (k : Nat) :
    ∀ h ∈ auto_search env q k,
      h.chemical_data.isSome = true → h.metadata.doc_type = some "chemical" := by
  intro h hm hsome
  unfold auto_search at hm
  dsimp only at hm
  split at hm
  · exact (exact_search_doc_type env q k h hm).2
  · split at hm
    · exact hybrid_search_chem_doc_type env q k h hm hsome
    · split at hm
      · rcases List.mem_append.mp (mem_merge_results (List.mem_of_mem_take hm)) with hs | he
        · rw [semantic_search_r_no_chem env q k h hs] at hsome
          cases hsome
        · exact (exact_search_doc_type env q _ h he).2
      · rw [semantic_search_r_no_chem env q k h hm] at hsome
        cases hsome

theorem bsr_buckets_chem_doc_type (env : Env) (basic : List SearchHit) (q : String)
    (hvec : ∀ qq kk l, env.vec qq kk = .ok l → ∀ g ∈ l, g.chemical_data = none)
    (hbasic : ∀ h ∈ basic,
      h.chemical_data.isSome = true → h.metadata.doc_type = some "chemical") :
    ∀ h ∈ (build_structured_result env basic q).chemical_data ++
          (build_structured_result env basic q).regulations,
      h.chemical_data.isSome = true → h.metadata.doc_type = some "chemical" := by
  intro h hm hsome
  have hcd : (build_structured_result env basic q).chemical_data =
      basic.filter (fun x => decide (x.metadata.doc_type = some "chemical")) := rfl
  have hrg : (build_structured_result env basic q).regulations =
      merge_regulations env.hashStr
        (basic.filter (fun x => decide (x.metadata.doc_type = some "regulation")))
        (find_related_regulations env
          (basic.filter (fun x => decide (x.metadata.doc_type = some "chemical"))) q) := rfl
  rw [hcd, hrg] at hm
  rcases List.mem_append.mp hm with hc | hr
  · exact hbasic h (List.mem_of_mem_filter hc) hsome
  · rcases List.mem_append.mp (mem_merge_regulations hr) with h1 | h2
    · exact hbasic h (List.mem_of_mem_filter h1) hsome
    · rcases mem_find_related_regulations env _ q h h2 with ⟨t, kk, l, hl, hmem⟩
      rw [hvec t kk l hl h hmem] at hsome
      cases hsome

theorem mem_fallback_concat (env : Env) (k : Nat) :
    ∀ (names : List String) (acc : List SearchHit) (x : SearchHit),
    x ∈ names.foldl (fun a n => a ++ hybrid_search env n k) acc →
    x ∈ acc ∨ ∃ n, x ∈ hybrid_search env n k := by
  intro names
  induction names with
  | nil => intro acc x hx; exact Or.inl hx
  | cons n ns ih =>
    intro acc x hx
    rw [List.foldl_cons] at hx
    rcases ih _ x hx with h | h
    · rcases List.mem_append.mp h with h' | h'
      · exact Or.inl h'
      · exact Or.inr ⟨n, h'⟩
    · exact Or.inr h

theorem fallback_buckets_chem_doc_type (env : Env) (q : String) (k : Nat)
    (hvec : ∀ qq kk l, env.vec qq kk = .ok l → ∀ g ∈ l, g.chemical_data = none) :
    ∀ h ∈ (fallback_search env q k).chemical_data ++
          (fallback_search env q k).regulations,
      h.chemical_data.isSome = true → h.metadata.doc_type = some "chemical" := by
  intro h hm hsome
  unfold fallback_search at hm
  dsimp only at hm
  split at hm
  · cases hm
  · split at hm
    · cases hm
    · refine bsr_buckets_chem_doc_type env _ q hvec ?_ h hm hsome
      intro x hx hxsome
      rcases mem_fallback_concat env k _ [] x hx with h' | ⟨n, h'⟩
      · cases h'
      · exact hybrid_search_chem_doc_type env n k x h' hxsome

theorem retrieve_buckets_chem_doc_type (env : Env) (q s : String) (k : Nat)
    (hvec : ∀ qq kk l, env.vec qq kk = .ok l → ∀ g ∈ l, g.chemical_data = none) :
    ∀ h ∈ (retrieve env q s k).chemical_data ++ (retrieve env q s k).regulations,
      h.chemical_data.isSome = true → h.metadata.doc_type = some "chemical" := by
  intro h hm hsome
  have hbasic : ∀ h' ∈ (if s = "exact" then exact_search env q k
      else if s = "semantic" then semantic_search_r env q k
      else if s = "hybrid" then hybrid_search env q k
      else auto_search env q k),
      h'.chemical_data.isSome = true → h'.metadata.doc_type = some "chemical" := by
    intro h' hm' hsome'
    split at hm'
    · exact (exact_search_doc_type env q k h' hm').2
    · split at hm'
      · rw [semantic_search_r_no_chem env q k h' hm'] at hsome'
        cases hsome'
      · split at hm'
        · exact hybrid_search_chem_doc_type env q k h' hm' hsome'
        · exact auto_search_chem_doc_type env q k h' hm' hsome'
  have hshape : retrieve env q s k =
      build_structured_result env (if s = "exact" then exact_search env q k
        else if s = "semantic" then semantic_search_r env q k
        else if s = "hybrid" then hybrid_search env q k
        else auto_search env q k) q ∨
      retrieve env q s k = fallback_search env q k := by
    unfold retrieve
    dsimp only
    repeat' split
    all_goals first
      | (left; rfl)
      | (right; rfl)
  rcases hshape with hs' | hs'
  · rw [hs'] at hm
    exact bsr_buckets_chem_doc_type env _ q hvec hbasic h hm hsome
  · rw [hs'] at hm
    exact fallback_buckets_chem_doc_type env q k hvec h hm hsome

theorem process_markdown_doc_type (f : String → String) (maxS ov : Nat) (md : String) :
    ∀ d ∈ process_markdown_content f maxS ov md,
      d.2.doc_type = some "regulation" := by
  intro d hd
  unfold process_markdown_content at hd
  rcases List.mem_flatMap.mp hd with ⟨⟨i, sec⟩, _, hmem⟩
  dsimp only at hmem
  split at hmem
  · rcases List.mem_filterMap.mp hmem with ⟨⟨j, chunk⟩, _, hsome⟩
    dsimp only at hsome
    split at hsome
    · injection hsome with hsome
      rw [← hsome]
    · cases hsome
  · cases hmem

theorem import_markdown_id_prefix (f : String → String) (maxS ov : Nat) (md : String) :
    ∀ d ∈ import_markdown_metas f maxS ov md,
      ∃ t, d.2.id = some ("appendix_" ++ t) := by
  intro d hd
  unfold import_markdown_metas at hd
  rcases List.mem_map.mp hd with ⟨⟨c, m⟩, _, heq⟩
  refine ⟨toString (m.section_id.getD 0) ++ ("_" ++ toString (m.chunk_id.getD 0)), ?_⟩
  rw [← heq]
  dsimp only
  rw [String.append_assoc, String.append_assoc]

theorem un_prefix_ne_appendix (x y : String) : "un_" ++ x ≠ "appendix_" ++ y := by
  intro h
  have hd := congrArg String.data h
  rw [String.data_append, String.data_append] at hd
  have h1 : 'u' :: 'n' :: '_' :: x.data =
      'a' :: 'p' :: 'p' :: 'e' :: 'n' :: 'd' :: 'i' :: 'x' :: '_' :: y.data := hd
  injection h1 with h2 _
  exact absurd h2 (by decide)

theorem merge_key_never_conflates (hs : String → Int) (h g : SearchHit)
    (c : ChemicalRecord) (t : String) (hc : h.chemical_data = some c)
    (hg : g.chemical_data = none) (hid : g.metadata.id = some ("appendix_" ++ t)) :
    merge_key hs h ≠ merge_key hs g := by
  unfold merge_key
  rw [hc, hg]
  dsimp only
  rw [hid]
  dsimp only
  rw [String.append_assoc, String.append_assoc]
  exact un_prefix_ne_appendix _ _

/-- C8: a hit carrying chemical data always has `doc_type = "chemical"` — in
the output of every search strategy and in both buckets of every
`RetrievalResult` (raw vector hits never carry chemical data, per the
vector-store model); every document produced from the markdown corpus is
tagged `doc_type = "regulation"` and indexed under an `appendix_`-prefixed
id; and the merge deduplication key of a chemical hit is never equal to the
key of a corpus regulation hit. -/
theorem hit_typing_invariants (env : Env)
    (hvec : ∀ qq kk l, env.vec qq kk = .ok l → ∀ g ∈ l, g.chemical_data = none) :
    (∀ q k, ∀ h ∈ exact_search env q k,
      h.chemical_data.isSome = true ∧ h.metadata.doc_type = some "chemical") ∧
    (∀ q k, ∀ h ∈ semantic_search_r env q k, h.chemical_data = none) ∧
    (∀ q k, ∀ h ∈ hybrid_search env q k,
      h.chemical_data.isSome = true → h.metadata.doc_type = some "chemical") ∧
    (∀ q k, ∀ h ∈ auto_search env q k,
      h.chemical_data.isSome = true → h.metadata.doc_type = some "chemical") ∧
    (∀ q s k, ∀ h ∈ (retrieve env q s k).chemical_data ++
        (retrieve env q s k).regulations,
      h.chemical_data.isSome = true → h.metadata.doc_type = some "chemical") ∧
    (∀ (f : String → String) (maxS ov : Nat) (md : String),
      ∀ d ∈ process_markdown_content f maxS ov md,
        d.2.doc_type = some "regulation") ∧
    (∀ (f : String → String) (maxS ov : Nat) (md : String),
      ∀ d ∈ import_markdown_metas f maxS ov md,
        ∃ t, d.2.id = some ("appendix_" ++ t)) ∧
    (∀ (hs : String → Int) (h g : SearchHit) (c : ChemicalRecord) (t : String),
      h.chemical_data = some c → g.chemical_data = none →
      g.metadata.id = some ("appendix_" ++ t) →
      merge_key hs h ≠ merge_key hs g) :=
  ⟨fun q k => exact_search_doc_type env q k,
   fun q k => semantic_search_r_no_chem env q k,
   fun q k => hybrid_search_chem_doc_type env q k,
   fun q k => auto_search_chem_doc_type env q k,
   fun q s k => retrieve_buckets_chem_doc_type env q s k hvec,
   process_markdown_doc_type,
   import_markdown_id_prefix,
   merge_key_never_conflates⟩

/-- C8 witness: the invariants evaluated on a concrete environment, a
concrete exact hit, and the concrete chemical/regulation hit pair. -/
theorem hit_typing_invariants_witness :
    ((mk_exact_un_hit chem_1133_I).chemical_data.isSome = true ∧
      (mk_exact_un_hit chem_1133_I).metadata.doc_type = some "chemical") ∧
    merge_key hash0 hit_1133_I ≠ merge_key hash0 reg_hit0 := by
  obtain ⟨h1, _, _, _, _, _, _, h8⟩ := hit_typing_invariants env_ok
    (fun qq kk l hl g hg => by
      injection hl with hl
      subst hl
      cases hg)
  exact ⟨h1 "UN1133" 5 (mk_exact_un_hit chem_1133_I) (by decide),
         h8 hash0 hit_1133_I reg_hit0 chem_1133_I "0_0" rfl rfl rfl⟩

end HazMat
